import Mathlib

/-!
Verification of the ccjournal log-sync pipeline (parser.py, sync.py, config.py)
against its natural-language specification.  The Python source is shallowly
embedded: pure functions become Lean functions, filesystem and subprocess
effects become explicit parameters (an existing-directory set, a command
outcome, a file content), and `datetime` values become an explicit record of
calendar fields plus an optional fixed UTC-offset in minutes.
-/

set_option maxHeartbeats 1000000

namespace CCJournal

/-- Decimal digit character, embedding Python's rendering of a digit 0-9. -/
def digitChar (n : Nat) : Char := Char.ofNat (48 + n)

/-- Fuel-driven digit expansion; with fuel at least `n` it computes the
most-significant-first decimal digits of `n`. -/
def natDigitsAux (fuel : Nat) (n : Nat) : List Char :=
  match fuel with
  | 0 => [digitChar (n % 10)]
  | fuel + 1 =>
      if n < 10 then [digitChar n]
      else natDigitsAux fuel (n / 10) ++ [digitChar (n % 10)]

/-- Most-significant-first decimal digits of a natural number, embedding the
digit sequence produced by Python's `str(n)` / `"%d" % n`. -/
def natDigits (n : Nat) : List Char := natDigitsAux n n

/-- Embedding of Python's `str(n)` for a natural number. -/
def natRepr (n : Nat) : String := String.mk (natDigits n)

/-- Embedding of Python's `f"{n:02d}"`: minimum width 2, zero padded. -/
def pad2 (n : Nat) : List Char :=
  if n < 10 then '0' :: natDigits n else natDigits n

/-- Embedding of Python's `f"{n:04d}"`: minimum width 4, zero padded. -/
def pad4 (n : Nat) : List Char :=
  if n < 10 then '0' :: '0' :: '0' :: natDigits n
  else if n < 100 then '0' :: '0' :: natDigits n
  else if n < 1000 then '0' :: natDigits n
  else natDigits n

/-- Embedding of Python's `f"{n:06d}"`: minimum width 6, zero padded. -/
def pad6 (n : Nat) : List Char :=
  if n < 10 then '0' :: '0' :: '0' :: '0' :: '0' :: natDigits n
  else if n < 100 then '0' :: '0' :: '0' :: '0' :: natDigits n
  else if n < 1000 then '0' :: '0' :: '0' :: natDigits n
  else if n < 10000 then '0' :: '0' :: natDigits n
  else if n < 100000 then '0' :: natDigits n
  else natDigits n

/-- Numeric value of a digit character, `none` for a non-digit. -/
def digitVal (c : Char) : Option Nat :=
  if 48 ≤ c.toNat ∧ c.toNat ≤ 57 then some (c.toNat - 48) else none

/-- Value of a most-significant-first digit list. -/
def digitsVal (l : List Char) : Nat :=
  l.foldl (fun acc c => acc * 10 + ((digitVal c).getD 0)) 0

/-- A moment in time: embedding of an optionally zone-aware Python `datetime`.
`tz` is `none` for a naive datetime, `some o` for a fixed UTC offset of `o`
minutes.  Calendar fields are kept directly, as `datetime` does. -/
structure Timestamp where
  year : Nat
  month : Nat
  day : Nat
  hour : Nat
  minute : Nat
  second : Nat
  micro : Nat
  tz : Option Int
deriving DecidableEq, Repr

/-- A single conversation message (`parser.Message`). -/
structure Message where
  type : String
  timestamp : Timestamp
  content : String
deriving DecidableEq, Repr

/-- A decoded project path (`pathlib.Path`): absolute flag plus segments. -/
structure PathT where
  absolute : Bool
  segs : List String
deriving DecidableEq, Repr

/-- A session enriched with project metadata (`sync.ProjectSession`). -/
structure ProjectSession where
  session_id : String
  project_name : String
  project_path : PathT
  branch : Option String
  messages : List Message
deriving DecidableEq, Repr

/-- Output configuration (`config.OutputConfig`), restricted to the fields the
sync pipeline reads.  `structure'` is the `structure` key (`"date"` or
`"project"`); the repository root is kept as absolute path segments. -/
structure OutputConfig where
  repository : List String
  structure' : String
deriving DecidableEq, Repr

/-- Sync configuration (`config.SyncConfig`), restricted to the filter flags. -/
structure SyncConfig where
  exclude_system : Bool
  exclude_tool_messages : Bool
deriving DecidableEq, Repr

/-- Application configuration (`config.Config`). -/
structure Config where
  output : OutputConfig
  sync : SyncConfig
  project_aliases : List (String × String)
deriving DecidableEq, Repr

/-- Replacement of every occurrence of one character by another: embedding of
Python's `s.replace(a, b)` for single-character `a` and `b`. -/
def replaceChar (a b : Char) (s : String) : String :=
  String.mk (s.data.map (fun c => if c = a then b else c))

/-- Sanitization step of `sync.generate_output_path`:
`project_name.replace("/", "-").replace("\\", "-")`. -/
def sanitizeProjectName (name : String) : String :=
  replaceChar '\\' '-' (replaceChar '/' '-' name)

/-- Embedding of `sync.generate_output_path`.  Returns the output file path as
segments appended to the repository root.  `date` structure gives
`repo/YYYY/MM/DD/<name>.md` (month and day via `f"{...:02d}"`, year via
`str(...)`); any other structure gives `repo/<name>/YYYY-MM-DD.md` via
`strftime("%Y-%m-%d")`. -/
def generate_output_path (config : Config) (project_name : String)
    (date : Timestamp) : List String :=
  let repo_path := config.output.repository
  let safe_project_name := sanitizeProjectName project_name
  if config.output.structure' = "date" then
    repo_path ++ [natRepr date.year, String.mk (pad2 date.month),
      String.mk (pad2 date.day), safe_project_name ++ ".md"]
  else
    repo_path ++ [safe_project_name,
      String.mk (pad4 date.year ++ '-' :: pad2 date.month ++ '-' :: pad2 date.day)
        ++ ".md"]

/-- Sanitization as the spec words it: replace every path-separator character
(`/` or `\`) in the project name with the placeholder `-`. -/
def sanitizeSpec (name : String) : String :=
  String.mk (name.data.map (fun c => if c = '/' ∨ c = '\\' then '-' else c))

/-- Output path layout written directly from the spec's words (spec section 4.6):
date-based layout `root/YYYY/MM/DD/<sanitizedProjectName>.md` with zero-padded
month and day, project-based layout `root/<sanitizedProjectName>/YYYY-MM-DD.md`,
sanitization replacing path-separator characters with a `-` placeholder. -/
def generateOutputPathSpec (root : List String) (layout : String)
    (project_name : String) (date : Timestamp) : List String :=
  let sanitized := sanitizeSpec project_name
  if layout = "date" then
    root ++ [natRepr date.year, String.mk (pad2 date.month),
      String.mk (pad2 date.day), sanitized ++ ".md"]
  else
    root ++ [sanitized,
      String.mk (pad4 date.year ++ '-' :: pad2 date.month ++ '-' :: pad2 date.day)
        ++ ".md"]

/-- Fuel-driven insertion-ordered grouping; with fuel at least the list
length it groups the pairs by key, keys in first-occurrence order, values of
each key in original order — the behaviour of appending to a Python
`dict`-of-lists (`defaultdict(list)`) while iterating. -/
def groupByKeyAux {K V : Type} [DecidableEq K] (fuel : Nat) :
    List (K × V) → List (K × List V) :=
  match fuel with
  | 0 => fun _ => []
  | fuel + 1 => fun l =>
      match l with
      | [] => []
      | (k, v) :: rest =>
          (k, v :: (rest.filter (fun p => decide (p.1 = k))).map Prod.snd) ::
            groupByKeyAux fuel (rest.filter (fun p => decide (¬ p.1 = k)))

/-- Insertion-ordered grouping of key-value pairs. -/
def groupByKey {K V : Type} [DecidableEq K] (l : List (K × V)) : List (K × List V) :=
  groupByKeyAux l.length l

/-- Day key of a timestamp: midnight of its calendar date, in the same zone —
embedding of `timestamp.replace(hour=0, minute=0, second=0, microsecond=0)`. -/
def truncateDay (t : Timestamp) : Timestamp :=
  { t with hour := 0, minute := 0, second := 0, micro := 0 }

/-- Modelled from the spec: `sync.split_session_by_date` is absent from the
`src/` snapshot (its tests and its import by `tests/test_sync.py` are
present).  Per spec section 4.4 it partitions a session's messages by the
calendar day of their timestamp (day key = midnight of that date), building
for each distinct day a session with the same metadata and only that day's
messages in original relative order; the returned mapping is modelled as an
insertion-ordered association list, matching Python dict semantics with
structural key equality. -/
def split_session_by_date (s : ProjectSession) : List (Timestamp × ProjectSession) :=
  (groupByKey (s.messages.map (fun m => (truncateDay m.timestamp, m)))).map
    (fun kv => (kv.1, { s with messages := kv.2 }))

/-- The calendar date of a timestamp, embedding `datetime.date()`. -/
def dayTriple (t : Timestamp) : Nat × Nat × Nat := (t.year, t.month, t.day)

/-- Strict calendar-day ordering on timestamps (year, then month, then day). -/
def dayLt (a b : Timestamp) : Prop :=
  a.year < b.year ∨ (a.year = b.year ∧
    (a.month < b.month ∨ (a.month = b.month ∧ a.day < b.day)))

instance (a b : Timestamp) : Decidable (dayLt a b) := by
  unfold dayLt; infer_instance

/-- Insertion of a keyed sub-session into a list ordered by ascending day. -/
def insertByDay (x : Timestamp × ProjectSession) :
    List (Timestamp × ProjectSession) → List (Timestamp × ProjectSession)
  | [] => [x]
  | y :: ys =>
      if dayLt x.1 y.1 ∨ dayTriple x.1 = dayTriple y.1 then x :: y :: ys
      else y :: insertByDay x ys

/-- Sorting of keyed sub-sessions by ascending day key. -/
def sortByDay (l : List (Timestamp × ProjectSession)) :
    List (Timestamp × ProjectSession) :=
  l.foldr insertByDay []

/-- Concatenation of the messages of keyed sub-sessions across their day keys
in ascending day order. -/
def concatInDayOrder (l : List (Timestamp × ProjectSession)) : List Message :=
  (sortByDay l).flatMap (fun kv => kv.2.messages)

/-- Leap-year rule of the Gregorian calendar, as `calendar.isleap`. -/
def isLeapYear (y : Nat) : Bool :=
  decide ((y % 4 = 0 ∧ ¬ y % 100 = 0) ∨ y % 400 = 0)

/-- Number of days in a calendar month. -/
def daysInMonth (y m : Nat) : Nat :=
  if m = 2 then (if isLeapYear y then 29 else 28)
  else if m = 4 ∨ m = 6 ∨ m = 9 ∨ m = 11 then 30
  else 31

/-- A timestamp whose calendar date is well-formed. -/
def ValidDate (t : Timestamp) : Prop :=
  1 ≤ t.month ∧ t.month ≤ 12 ∧ 1 ≤ t.day ∧ t.day ≤ daysInMonth t.year t.month

instance (t : Timestamp) : Decidable (ValidDate t) := by
  unfold ValidDate; infer_instance

/-- The calendar day immediately after `(y, m, d)`. -/
def nextDayTriple (y m d : Nat) : Nat × Nat × Nat :=
  if d < daysInMonth y m then (y, m, d + 1)
  else if m < 12 then (y, m + 1, 1)
  else (y + 1, 1, 1)

/-- The grouping-and-writing stage of `sync.sync_logs` on collected sessions:
empty input short-circuits to an empty written list; otherwise sessions are
day-split (application of `split_session_by_date`, modelled from spec section
4.6: day-splitting is applied to the collected sessions before grouping),
grouped by `(project_name, first message timestamp truncated to midnight)`
in insertion order, and each group is written (dry run skips only the file
write) to its `generate_output_path`; the result pairs each written path with
the session group rendered into it, so `written_paths` is the list of first
components. -/
def sync_plan (config : Config) (sessions : List ProjectSession) :
    List (List String × List ProjectSession) :=
  if sessions.isEmpty then []
  else
    let daily := sessions.flatMap (fun s => (split_session_by_date s).map Prod.snd)
    let keyed := daily.filterMap (fun s =>
      match s.messages with
      | [] => none
      | m :: _ => some ((s.project_name, truncateDay m.timestamp), s))
    (groupByKey keyed).map (fun g => (generate_output_path config g.1.1 g.1.2, g.2))

/-- Python `str.strip()` whitespace characters (ASCII portion). -/
def isWsChar (c : Char) : Bool :=
  c = ' ' ∨ c = '\t' ∨ c = '\n' ∨ c = '\r' ∨ c = '\x0b' ∨ c = '\x0c'

/-- Embedding of Python's `str.strip()`. -/
def trimChars (l : List Char) : List Char :=
  ((l.dropWhile isWsChar).reverse.dropWhile isWsChar).reverse

/-- Reading of one decimal digit from the front of a character list. -/
def readDigit (l : List Char) : Option (Nat × List Char) :=
  match l with
  | [] => none
  | c :: rest =>
      match digitVal c with
      | some d => some (d, rest)
      | none => none

/-- Reading of exactly two decimal digits. -/
def read2 (l : List Char) : Option (Nat × List Char) :=
  match readDigit l with
  | none => none
  | some (a, r) =>
      match readDigit r with
      | none => none
      | some (b, r2) => some (a * 10 + b, r2)

/-- Reading of exactly four decimal digits. -/
def read4 (l : List Char) : Option (Nat × List Char) :=
  match read2 l with
  | none => none
  | some (a, r) =>
      match read2 r with
      | none => none
      | some (b, r2) => some (a * 100 + b, r2)

/-- Reading of exactly six decimal digits. -/
def read6 (l : List Char) : Option (Nat × List Char) :=
  match read4 l with
  | none => none
  | some (a, r) =>
      match read2 r with
      | none => none
      | some (b, r2) => some (a * 100 + b, r2)

/-- Consuming one expected character. -/
def expectChar (c : Char) : List Char → Option (List Char)
  | [] => none
  | x :: xs => if x = c then some xs else none

/-- The optional fractional-second part: a `.` followed by six digits
(the microsecond form that `datetime.isoformat` emits), else zero. -/
def readFrac (l : List Char) : Option (Nat × List Char) :=
  match l with
  | c :: rest => if c = '.' then read6 rest else some (0, c :: rest)
  | [] => some (0, [])

/-- The optional UTC-offset suffix: nothing (naive), `Z`, or a sign with
`HH:MM`, consuming the whole remainder; the offset is returned in minutes. -/
def readTzSuffix (l : List Char) : Option (Option Int) :=
  match l with
  | [] => some none
  | c :: rest =>
      if c = 'Z' then (if rest = [] then some (some 0) else none)
      else if c = '+' ∨ c = '-' then
        match read2 rest with
        | none => none
        | some (hh, r1) =>
            match expectChar ':' r1 with
            | none => none
            | some r2 =>
                match read2 r2 with
                | none => none
                | some (mm, r3) =>
                    if r3 = [] ∧ hh * 60 + mm < 1440 then
                      some (some (if c = '-' then -((hh * 60 + mm : Nat) : Int)
                        else ((hh * 60 + mm : Nat) : Int)))
                    else none
      else none

/-- Embedding of `datetime.fromisoformat` on the grammar relevant to this
program: `YYYY-MM-DD[(T| )HH:MM:SS[.ffffff]][Z|(+|-)HH:MM]`, with calendar
and range validation; every isoformat-produced string falls in this subset,
and strings outside it (including malformed content) yield `none`, as the
Python call raises `ValueError` there.  (Python 3.11 accepts some further
ISO-8601 shapes that never occur in this program; they are outside the
model.) -/
def iso_parse (l : List Char) : Option Timestamp :=
  match read4 l with
  | none => none
  | some (y, r1) =>
  match expectChar '-' r1 with
  | none => none
  | some r2 =>
  match read2 r2 with
  | none => none
  | some (mo, r3) =>
  match expectChar '-' r3 with
  | none => none
  | some r4 =>
  match read2 r4 with
  | none => none
  | some (d, r5) =>
  if ¬ (1 ≤ y ∧ 1 ≤ mo ∧ mo ≤ 12 ∧ 1 ≤ d ∧ d ≤ daysInMonth y mo) then none
  else
    match r5 with
    | [] => some ⟨y, mo, d, 0, 0, 0, 0, none⟩
    | sep :: r6 =>
        if ¬ (sep = 'T' ∨ sep = ' ') then none
        else
          match read2 r6 with
          | none => none
          | some (h, r7) =>
          match expectChar ':' r7 with
          | none => none
          | some r8 =>
          match read2 r8 with
          | none => none
          | some (mi, r9) =>
          match expectChar ':' r9 with
          | none => none
          | some r10 =>
          match read2 r10 with
          | none => none
          | some (sec, r11) =>
          if ¬ (h ≤ 23 ∧ mi ≤ 59 ∧ sec ≤ 59) then none
          else
            match readFrac r11 with
            | none => none
            | some (micro, r12) =>
            match readTzSuffix r12 with
            | none => none
            | some tz => some ⟨y, mo, d, h, mi, sec, micro, tz⟩

/-- The `±HH:MM` offset suffix that `datetime.isoformat` prints for a
fixed-offset timezone of whole minutes. -/
def offsetChars (o : Int) : List Char :=
  (if o < 0 then '-' else '+') ::
    (pad2 (o.natAbs / 60) ++ (':' :: pad2 (o.natAbs % 60)))

/-- Embedding of `datetime.isoformat()` on this model: date, `T`, time,
microseconds when non-zero, offset when aware. -/
def iso_format (t : Timestamp) : List Char :=
  pad4 t.year ++ ('-' :: (pad2 t.month ++ ('-' :: (pad2 t.day ++ ('T' ::
    (pad2 t.hour ++ (':' :: (pad2 t.minute ++ (':' :: (pad2 t.second ++
    ((if t.micro = 0 then [] else '.' :: pad6 t.micro) ++
    (match t.tz with
     | none => []
     | some o => offsetChars o))))))))))))

/-- Embedding of `config.save_last_sync`: a timezone-naive timestamp is
reinterpreted as UTC, then the ISO form is written as the whole content of
the watermark file (returned here; the previous content is irrelevant since
the file is overwritten). -/
def save_last_sync (t : Timestamp) : Option String :=
  some (String.mk (iso_format (if t.tz = none then { t with tz := some 0 } else t)))

/-- Embedding of `config.get_last_sync` as a function of the watermark file
content (`none` when the file is missing): the stripped content is parsed as
an ISO timestamp, any parse failure becoming `none`. -/
def get_last_sync (file : Option String) : Option Timestamp :=
  match file with
  | none => none
  | some content => iso_parse (trimChars content.data)

/-- A timestamp representable by a Python `datetime`: fields in range and any
offset strictly less than 24 hours in magnitude. -/
def ValidTs (t : Timestamp) : Prop :=
  1 ≤ t.year ∧ t.year ≤ 9999 ∧ ValidDate t ∧ t.hour ≤ 23 ∧ t.minute ≤ 59 ∧
    t.second ≤ 59 ∧ t.micro ≤ 999999 ∧
    (∀ o, t.tz = some o → o.natAbs < 1440)

instance (t : Timestamp) : Decidable (ValidTs t) := by
  unfold ValidTs
  exact instDecidableAnd

/-- A message timestamped on 2024-01-16, listed before an earlier one. -/
def msgJan16 : Message := ⟨"user", ⟨2024, 1, 16, 10, 0, 0, 0, some 0⟩, "Day 2"⟩

/-- A message timestamped on 2024-01-15. -/
def msgJan15 : Message := ⟨"assistant", ⟨2024, 1, 15, 9, 0, 0, 0, some 0⟩, "Day 1"⟩

/-- A session whose two messages are not in chronological day order. -/
def outOfOrderSession : ProjectSession :=
  ⟨"abc12345", "my-project", ⟨true, ["p"]⟩, none, [msgJan16, msgJan15]⟩

/-- Repository visibility (`sync.RepositoryVisibility`). -/
inductive RepositoryVisibility where
  | PUBLIC
  | PRIVATE
  | UNKNOWN
deriving DecidableEq, Repr

/-- Result of the push permission check (`sync.PushPermissionResult`). -/
structure PushPermissionResult where
  allowed : Bool
  visibility : RepositoryVisibility
  warning_message : Option String
deriving DecidableEq, Repr

/-- Embedding of `sync.check_push_permission`.  The repository visibility
lookup (`check_repository_visibility`, a subprocess call) is passed in as a
value; the remaining logic is the pure branch structure of the source.  The
Lean function is total, modelling that the Python body raises no exception. -/
def check_push_permission (visibility : RepositoryVisibility)
    (allow_public : Bool) (allow_unknown : Bool) : PushPermissionResult :=
  if visibility = RepositoryVisibility.PUBLIC then
    if !allow_public then
      { allowed := false, visibility := visibility,
        warning_message := some ("Refusing to push to public repository. " ++
          "Set 'allow_public_repository = true' to override.") }
    else
      { allowed := true, visibility := visibility,
        warning_message := some ("Pushing to a PUBLIC repository. " ++
          "Ensure no sensitive information is included.") }
  else if visibility = RepositoryVisibility.UNKNOWN then
    if !allow_unknown then
      { allowed := false, visibility := visibility,
        warning_message := some
          ("Repository visibility unknown (non-GitHub or gh CLI not available). " ++
           "Set 'allow_unknown_visibility = true' to push anyway.") }
    else
      { allowed := true, visibility := visibility,
        warning_message := some "Repository visibility unknown. Proceeding with push." }
  else
    { allowed := true, visibility := visibility, warning_message := none }

/-- Outcome of one external `subprocess.run` invocation: either the process
completed with an exit status and captured stdout, or the call failed with one
of the exceptions the source catches (`TimeoutExpired`, `FileNotFoundError`,
`OSError`). -/
inductive RunResult where
  | completed (returncode : Int) (stdout : String)
  | timedOut
  | notFound
  | osError
deriving DecidableEq, Repr

/-- A run outcome that is a failure: non-zero exit status, timeout, missing
executable, or OS error. -/
def RunResult.failed : RunResult → Prop
  | .completed rc _ => rc ≠ 0
  | _ => True

instance : DecidablePred RunResult.failed := by
  intro r
  cases r <;> simp [RunResult.failed] <;> infer_instance

/-- Embedding of `parser.get_git_remote_url` as a function of the outcome of
its `git remote get-url origin` invocation.  Every caught exception and every
non-zero exit maps to `none`; a zero exit yields the stripped stdout.  The
Lean function is total: no exception escapes. -/
def get_git_remote_url (r : RunResult) : Option String :=
  match r with
  | .completed returncode stdout =>
      if returncode = 0 then some stdout.trim else none
  | .timedOut => none
  | .notFound => none
  | .osError => none

/-- Embedding of `parser.get_git_branch` as a function of the outcome of its
`git rev-parse --abbrev-ref HEAD` invocation; same failure handling as
`get_git_remote_url`. -/
def get_git_branch (r : RunResult) : Option String :=
  match r with
  | .completed returncode stdout =>
      if returncode = 0 then some stdout.trim else none
  | .timedOut => none
  | .notFound => none
  | .osError => none

/-- The probed filesystem, for `Path.exists() and Path.is_dir()` checks: the
set of absolute directory paths that exist, as segment lists. -/
def Dirs : Type := List (List String)

/-- Existence-and-directory test against the probed filesystem. -/
def isDir (fs : Dirs) (p : List String) : Bool :=
  match fs with
  | [] => false
  | q :: rest => if q = p then true else isDir rest p

/-- Splitting a character list on a separator character, embedding Python's
`str.split(sep)` for a single-character separator (keeps empty pieces). -/
def splitOnChar (c : Char) : List Char → List (List Char)
  | [] => [[]]
  | x :: xs =>
      let r := splitOnChar c xs
      if x = c then [] :: r
      else
        match r with
        | [] => [[x]]
        | y :: ys => (x :: y) :: ys

/-- Inner while-loop of `parser._find_existing_path`: starting from the
committed `result_parts` and the current `segment`, greedily merge following
tokens using the `.` joiner (tested first) or the `-` joiner, as long as the
merged candidate exists as a directory; returns the longest successful merge
and the unconsumed tokens. -/
def extendSeg (fs : Dirs) (result_parts : List String) (segment : String) :
    List String → String × List String
  | [] => (segment, [])
  | p :: rest =>
      let test_with_dot := segment ++ "." ++ p
      let test_with_dash := segment ++ "-" ++ p
      if isDir fs (result_parts ++ [test_with_dot]) then
        extendSeg fs result_parts test_with_dot rest
      else if isDir fs (result_parts ++ [test_with_dash]) then
        extendSeg fs result_parts test_with_dash rest
      else (segment, p :: rest)

/-- Fuel-driven form of the outer while-loop of `parser._find_existing_path`;
with fuel at least the token count the fuel never runs out, because
`extendSeg` consumes at least one token per iteration. -/
def findExistingPathAux (fuel : Nat) (fs : Dirs) (result_parts : List String)
    (l : List String) : List String :=
  match fuel with
  | 0 => result_parts ++ l
  | fuel + 1 =>
      match l with
      | [] => result_parts
      | p :: rest =>
          let step := extendSeg fs result_parts p rest
          findExistingPathAux fuel fs (result_parts ++ [step.1]) step.2

/-- Outer while-loop of `parser._find_existing_path`: commit the longest merge
for each position and advance past the consumed tokens. -/
def findExistingPath (fs : Dirs) (result_parts : List String)
    (l : List String) : List String :=
  findExistingPathAux l.length fs result_parts l

/-- Embedding of `parser.decode_project_path`.  A name not starting with `-`
gets the naive separator substitution; otherwise the leading `-` is removed,
the remainder split on `-`, and the path reconstructed against the probed
filesystem rooted at `/`. -/
def decode_project_path (fs : Dirs) (encoded : String) : PathT :=
  match encoded.data with
  | '-' :: rest =>
      ⟨true, findExistingPath fs [] ((splitOnChar '-' rest).map String.mk)⟩
  | _ => ⟨false, (splitOnChar '-' encoded.data).map String.mk⟩

/-- Splitting at the first occurrence of a character: `some (before, after)`
when the character occurs, `none` otherwise.  Used to embed the regex pieces
`([^:]+):` and `([^/]+)/` of `parser.normalize_remote_url`. -/
def splitFirst (c : Char) : List Char → Option (List Char × List Char)
  | [] => none
  | x :: xs =>
      if x = c then some ([], xs)
      else
        match splitFirst c xs with
        | none => none
        | some (a, b) => some (x :: a, b)

/-- The `re.sub(r"\.git$", "", url)` step of `parser.normalize_remote_url`. -/
def stripDotGit (l : List Char) : List Char :=
  if (".git".data).isSuffixOf l then l.take (l.length - 4) else l

/-- The `re.match(r"git@([^:]+):(.+)", url)` step: on success the normalized
`host/rest` character list. -/
def matchScp (l : List Char) : Option (List Char) :=
  if ("git@".data).isPrefixOf l then
    match splitFirst ':' (l.drop 4) with
    | some (host, rest) =>
        let body := rest.takeWhile (fun c => c ≠ '\n')
        if host = [] ∨ body = [] then none else some (host ++ '/' :: body)
    | none => none
  else none

/-- The `re.match(r"ssh://git@([^/]+)/(.+)", url)` step. -/
def matchSshUrl (l : List Char) : Option (List Char) :=
  if ("ssh://git@".data).isPrefixOf l then
    match splitFirst '/' (l.drop 10) with
    | some (host, rest) =>
        let body := rest.takeWhile (fun c => c ≠ '\n')
        if host = [] ∨ body = [] then none else some (host ++ '/' :: body)
    | none => none
  else none

/-- The `re.match(r"https?://([^/]+)/(.+)", url)` step. -/
def matchHttps (l : List Char) : Option (List Char) :=
  let after : Option (List Char) :=
    if ("https://".data).isPrefixOf l then some (l.drop 8)
    else if ("http://".data).isPrefixOf l then some (l.drop 7)
    else none
  match after with
  | some s =>
      match splitFirst '/' s with
      | some (host, rest) =>
          let body := rest.takeWhile (fun c => c ≠ '\n')
          if host = [] ∨ body = [] then none else some (host ++ '/' :: body)
      | none => none
  | none => none

/-- Embedding of `parser.normalize_remote_url` on character lists: strip a
trailing `.git`, then try the SCP-style, `ssh://` URL and `http(s)://` URL
patterns in that order, passing the (stripped) input through unchanged when
none matches. -/
def normalizeChars (l : List Char) : List Char :=
  let s := stripDotGit l
  match matchScp s with
  | some r => r
  | none =>
      match matchSshUrl s with
      | some r => r
      | none =>
          match matchHttps s with
          | some r => r
          | none => s

/-- Embedding of `parser.normalize_remote_url`. -/
def normalize_remote_url (url : String) : String :=
  String.mk (normalizeChars url.data)

/-- One element of a structured message-content list: a plain string, or a
dict with the fields the extractor reads (`type`, `text`, `name`), or some
other JSON value (number, nested list), which the extractor skips. -/
inductive ContentPart where
  | str (s : String)
  | part (type_ : Option String) (text : Option String) (name : Option String)
  | other
deriving DecidableEq, Repr

/-- The `message.content` value of a session-file line: a string, a list of
parts, or a single dict. -/
inductive MsgContent where
  | str (s : String)
  | list (items : List ContentPart)
  | dict (type_ : Option String) (text : Option String) (name : Option String)
deriving DecidableEq, Repr

/-- Stand-in for Python's `str(content)` on a non-text dict; its exact
rendering is irrelevant to every property below. -/
def reprPyDict (type_ text name : Option String) : String :=
  "<dict " ++ (type_.getD "") ++ " " ++ (text.getD "") ++ " " ++ (name.getD "") ++ ">"

/-- Embedding of `parser.extract_text_content`. -/
def extract_text_content (content : MsgContent) : String :=
  match content with
  | .str s => s
  | .list items =>
      String.intercalate "\n" (items.filterMap (fun item =>
        match item with
        | .str s => some s
        | .part type_ text name =>
            if type_ = some "text" then some (text.getD "")
            else if type_ = some "tool_use" then
              some ("[Tool: " ++ name.getD "unknown" ++ "]")
            else if type_ = some "tool_result" then some "[Tool Result]"
            else none
        | .other => none))
  | .dict type_ text name =>
      if type_ = some "text" then text.getD "" else reprPyDict type_ text name

/-- Whether one character list occurs inside another. -/
def isInfixOfChars (needle : List Char) : List Char → Bool
  | [] => decide (needle = [])
  | c :: rest => needle.isPrefixOf (c :: rest) || isInfixOfChars needle rest

/-- Substring containment, embedding `re.search` of a literal pattern. -/
def containsStr (needle hay : String) : Bool :=
  isInfixOfChars needle.data hay.data

/-- Embedding of `parser.is_system_message`: substring search for the four
literal tag patterns. -/
def is_system_message (content : String) : Bool :=
  containsStr "<system-reminder>" content ||
    containsStr "<local-command-" content ||
    containsStr "</system-reminder>" content ||
    containsStr "</local-command-" content

/-- Fuel-driven removal of every occurrence of a token from a character
list; called with fuel at least the list length. -/
def removeSubAllAux (fuel : Nat) (needle : List Char) (l : List Char) : List Char :=
  match fuel with
  | 0 => l
  | fuel + 1 =>
      match l with
      | [] => []
      | c :: rest =>
          if needle ≠ [] ∧ needle.isPrefixOf (c :: rest) then
            removeSubAllAux fuel needle ((c :: rest).drop needle.length)
          else c :: removeSubAllAux fuel needle rest

/-- Removal of every occurrence of a token from a string. -/
def removeSubAll (needle : String) (s : String) : String :=
  String.mk (removeSubAllAux s.data.length needle.data s.data)

/-- The remainder after the first occurrence of a token, `none` when the
token does not occur. -/
def findDrop (needle : List Char) : List Char → Option (List Char)
  | [] => if needle = [] then some [] else none
  | c :: rest =>
      if needle.isPrefixOf (c :: rest) then some ((c :: rest).drop needle.length)
      else findDrop needle rest

/-- Fuel-driven removal of every non-nested `open … close` span, content
included; an unmatched opening token is left in place (the regex would not
match there). -/
def removeSpansAux (fuel : Nat) (opn cls : List Char) (l : List Char) : List Char :=
  match fuel with
  | 0 => l
  | fuel + 1 =>
      match l with
      | [] => []
      | c :: rest =>
          if opn ≠ [] ∧ opn.isPrefixOf (c :: rest) then
            match findDrop cls ((c :: rest).drop opn.length) with
            | some after => removeSpansAux fuel opn cls after
            | none => c :: removeSpansAux fuel opn cls rest
          else c :: removeSpansAux fuel opn cls rest

/-- Modelled from the spec: `parser.clean_content` is absent from the `src/`
snapshot (its tests are present).  Per spec section 4.2 it removes
`<local-command-output>` spans entirely including their content, and reduces
the `<command-name>`, `<bash-input>`, `<bash-stdout>` and `<bash-stderr>` tag
pairs to their inner text (an empty pair leaving nothing), other text
untouched. -/
def clean_content (s : String) : String :=
  let l := removeSpansAux s.data.length "<local-command-output>".data
    "</local-command-output>".data s.data
  let s1 := String.mk l
  let s2 := removeSubAll "<command-name>" (removeSubAll "</command-name>" s1)
  let s3 := removeSubAll "<bash-input>" (removeSubAll "</bash-input>" s2)
  let s4 := removeSubAll "<bash-stdout>" (removeSubAll "</bash-stdout>" s3)
  removeSubAll "<bash-stderr>" (removeSubAll "</bash-stderr>" s4)

/-- A line that exactly matches the tool-invocation marker pattern
`[Tool: …]` or the tool-result marker `[Tool Result]`. -/
def isToolMarkerLine (l : List Char) : Bool :=
  (("[Tool: ".data).isPrefixOf l ∧ ("]".data).isSuffixOf l ∧ 8 ≤ l.length)
    ∨ l = "[Tool Result]".data

/-- Modelled from the spec: `parser.is_tool_only_message` is absent from the
`src/` snapshot (its tests are present).  Per spec section 4.2 it is true
iff, after splitting into non-empty lines, every line matches the
tool-marker or tool-result-marker pattern exactly. -/
def is_tool_only_message (content : String) : Bool :=
  let lines := (splitOnChar '\n' content.data).filter
    (fun l => ¬ trimChars l = [])
  lines.all isToolMarkerLine

/-- The `timestamp_str.replace("Z", "+00:00")` step of
`parser.parse_session_file`. -/
def zReplace (l : List Char) : List Char :=
  l.flatMap (fun c => if c = 'Z' then "+00:00".data else [c])

/-- One line of a session file, after the JSON-decoding step: blank,
undecodable, or a decoded entry carrying the fields the parser reads
(`type`, `timestamp`, `message.content`; a missing field is `none`). -/
inductive RawLine where
  | blank
  | malformed
  | entry (type_ : Option String) (timestamp : Option String)
      (content : Option MsgContent)
deriving DecidableEq, Repr

/-- Modelled from the spec where it goes beyond the `src/` snapshot:
`parser.parse_session_file` in `src/` lacks the `exclude_tool_messages`
parameter that `sync.collect_sessions` and the tests use, and does not call
`clean_content`; spec section 4.3 fixes the full per-line pipeline embedded
here: skip blank and malformed lines; skip entries whose type is not
user/assistant; skip entries with a missing, empty or unparsable timestamp;
apply the optional calendar-date filter; extract text, clean it; skip system
messages when `exclude_system`, tool-only messages when
`exclude_tool_messages`, and empty results; yield the rest in line order. -/
def parse_session_file (lines : List RawLine) (exclude_system : Bool)
    (exclude_tool_messages : Bool) (date_filter : Option Timestamp) :
    List Message :=
  lines.filterMap (fun line =>
    match line with
    | .blank => none
    | .malformed => none
    | .entry type_ timestamp_str content_raw =>
        if ¬ (type_ = some "user" ∨ type_ = some "assistant") then none
        else
          match timestamp_str with
          | none => none
          | some ts =>
              if ts = "" then none
              else
                match iso_parse (zReplace ts.data) with
                | none => none
                | some timestamp =>
                    if (match date_filter with
                        | some df => decide (¬ dayTriple timestamp = dayTriple df)
                        | none => false) then none
                    else
                      let content := clean_content
                        (extract_text_content (content_raw.getD (.str "")))
                      if exclude_system ∧ is_system_message content then none
                      else if exclude_tool_messages ∧ is_tool_only_message content
                        then none
                      else if trimChars content.data = [] then none
                      else some ⟨type_.getD "", timestamp, content⟩)

/-- A session file on disk: name stem (the session id), modification time in
epoch seconds, and its decoded lines. -/
structure SessionFile where
  stem : String
  mtime : Int
  lines : List RawLine
deriving DecidableEq, Repr

/-- One child of the Claude projects directory: its (encoded) name, whether
it is a directory, and its `*.jsonl` session files. -/
structure ProjectDir where
  name : String
  is_dir : Bool
  files : List SessionFile
deriving DecidableEq, Repr

/-- Outcomes of the external git invocations, per project path. -/
structure GitEnv where
  runRemote : PathT → RunResult
  runBranch : PathT → RunResult

/-- The last path component, embedding `pathlib.Path.name`. -/
def pathName (p : PathT) : String := (p.segs.getLast?).getD ""

/-- Embedding of `str(path)` for a decoded project path. -/
def pathStr (p : PathT) : String :=
  (if p.absolute then "/" else "") ++ String.intercalate "/" p.segs

/-- Alias lookup, embedding `config.project_aliases.get(key)`. -/
def lookupAlias (aliases : List (String × String)) (key : String) :
    Option String :=
  (aliases.find? (fun kv => kv.1 = key)).map Prod.snd

/-- Existence check of a decoded path against the probed filesystem. -/
def pathExists (fs : Dirs) (p : PathT) : Bool :=
  p.absolute && isDir fs p.segs

/-- Embedding of `parser.extract_project_name`: the normalized git remote
URL when the remote query yields a non-empty URL, else the `_local-` name
from the last path component. -/
def extract_project_name (env : GitEnv) (p : PathT) : String :=
  match get_git_remote_url (env.runRemote p) with
  | some url => if url = "" then "_local-" ++ pathName p
      else normalize_remote_url url
  | none => "_local-" ++ pathName p

/-- Embedding of `sync.discover_sessions`: enumerate project directories
(skipping non-directories), decode each name, and yield
`(session_file, session_id, project_path)` for every `*.jsonl` file — except
that when `since` is given, files whose modification time is not strictly
after `since` are skipped. -/
def discover_sessions (fs : Dirs) (projects : List ProjectDir)
    (since : Option Int) : List (SessionFile × String × PathT) :=
  projects.flatMap (fun project_dir =>
    if ¬ project_dir.is_dir then []
    else
      let project_path := decode_project_path fs project_dir.name
      (project_dir.files.filter (fun f =>
        match since with
        | none => true
        | some t => ¬ f.mtime ≤ t)).map (fun f => (f, f.stem, project_path)))

/-- Embedding of `sync.collect_sessions`: parse each discovered file with the
configured filter flags, drop sessions left with no messages, resolve the
project name through the alias map, the git remote or the local fallback,
and attach the branch when the decoded path exists on disk. -/
def collect_sessions (fs : Dirs) (env : GitEnv) (config : Config)
    (projects : List ProjectDir) (date_filter : Option Timestamp)
    (since : Option Int) : List ProjectSession :=
  (discover_sessions fs projects since).filterMap (fun e =>
    let messages := parse_session_file e.1.lines config.sync.exclude_system
      config.sync.exclude_tool_messages date_filter
    if messages.isEmpty then none
    else
      let project_name := (lookupAlias config.project_aliases
        (pathStr e.2.2)).getD (extract_project_name env e.2.2)
      let branch := if pathExists fs e.2.2 then
        get_git_branch (env.runBranch e.2.2) else none
      some ⟨e.2.1, project_name, e.2.2, branch, messages⟩)

/-- Embedding of `sync.sync_logs`: collection followed by the
grouping-and-writing plan of `sync_plan`. -/
def sync_logs (fs : Dirs) (env : GitEnv) (config : Config)
    (projects : List ProjectDir) (date_filter : Option Timestamp)
    (since : Option Int) : List (List String × List ProjectSession) :=
  sync_plan config (collect_sessions fs env config projects date_filter since)

theorem natDigitsAux_fuel {f1 f2 n : Nat} (h1 : n ≤ f1) (h2 : n ≤ f2) :
    natDigitsAux f1 n = natDigitsAux f2 n := by
  induction f1 using Nat.strong_induction_on generalizing f2 n with
  | _ f1 ih =>
    match f1, f2 with
    | 0, 0 => rfl
    | 0, f2 + 1 =>
        have : n = 0 := by omega
        subst this
        simp [natDigitsAux, digitChar]
    | f1 + 1, 0 =>
        have : n = 0 := by omega
        subst this
        simp [natDigitsAux, digitChar]
    | f1 + 1, f2 + 1 =>
        by_cases hn : n < 10
        · simp [natDigitsAux, hn]
        · simp only [natDigitsAux, if_neg hn]
          congr 1
          exact ih f1 (by omega) (by omega) (by omega)

theorem natDigits_small {n : Nat} (h : n < 10) : natDigits n = [digitChar n] := by
  unfold natDigits natDigitsAux
  match n with
  | 0 => rfl
  | n + 1 => simp [h]

theorem natDigits_step {n : Nat} (h : ¬ n < 10) :
    natDigits n = natDigits (n / 10) ++ [digitChar (n % 10)] := by
  unfold natDigits
  match n, h with
  | n + 1, h =>
    simp only [natDigitsAux, if_neg h]
    congr 1
    exact natDigitsAux_fuel (by omega) (le_refl _)

theorem natDigits_unfold (n : Nat) :
    natDigits n = if n < 10 then [digitChar n]
      else natDigits (n / 10) ++ [digitChar (n % 10)] := by
  by_cases h : n < 10
  · rw [if_pos h, natDigits_small h]
  · rw [if_neg h, natDigits_step h]

theorem digitVal_digitChar {k : Nat} (h : k < 10) : digitVal (digitChar k) = some k := by
  interval_cases k <;> decide

theorem digitChar_ne_zero {k : Nat} (h1 : 1 ≤ k) (h2 : k < 10) : digitChar k ≠ '0' := by
  interval_cases k <;> decide

theorem natDigits_ne_nil (n : Nat) : natDigits n ≠ [] := by
  rw [natDigits_unfold]
  split
  · simp
  · simp

theorem digitsVal_append_digit (l : List Char) (k : Nat) (h : k < 10) :
    digitsVal (l ++ [digitChar k]) = digitsVal l * 10 + k := by
  simp [digitsVal, List.foldl_append, digitVal_digitChar h]

theorem digitsVal_natDigits (n : Nat) : digitsVal (natDigits n) = n := by
  induction n using Nat.strong_induction_on with
  | _ n ih =>
    by_cases h : n < 10
    · rw [natDigits_small h]
      simp [digitsVal, digitVal_digitChar h]
    · rw [natDigits_step h, digitsVal_append_digit _ _ (Nat.mod_lt _ (by omega))]
      rw [ih (n / 10) (Nat.div_lt_self (by omega) (by omega))]
      omega

theorem natDigits_injective {a b : Nat} (h : natDigits a = natDigits b) : a = b := by
  have := digitsVal_natDigits a
  rw [h, digitsVal_natDigits] at this
  omega

theorem natRepr_injective {a b : Nat} (h : natRepr a = natRepr b) : a = b := by
  unfold natRepr at h
  exact natDigits_injective (congrArg String.data h)

theorem natDigits_head_ne_zero {n : Nat} (h : 1 ≤ n) :
    ∀ c cs, natDigits n = c :: cs → c ≠ '0' := by
  induction n using Nat.strong_induction_on with
  | _ n ih =>
    intro c cs hd
    by_cases hs : n < 10
    · rw [natDigits_small hs] at hd
      cases hd
      exact digitChar_ne_zero h hs
    · rw [natDigits_step hs] at hd
      rcases hq : natDigits (n / 10) with _ | ⟨c', cs'⟩
      · exact absurd hq (natDigits_ne_nil _)
      · rw [hq] at hd
        simp at hd
        obtain ⟨hc, -⟩ := hd
        subst hc
        exact ih (n / 10) (Nat.div_lt_self (by omega) (by omega))
          (Nat.one_le_div_iff (by omega) |>.mpr (by omega)) c' cs' hq

theorem pad2_injective {a b : Nat} (ha : a < 100) (hb : b < 100)
    (h : pad2 a = pad2 b) : a = b := by
  unfold pad2 at h
  split at h <;> split at h
  · simp at h
    exact natDigits_injective h
  · rename_i h1 h2
    rw [natDigits_small h1, natDigits_step h2,
        natDigits_small (by omega : b / 10 < 10)] at h
    simp at h
    obtain ⟨h3, -⟩ := h
    exact absurd h3.symm
      (digitChar_ne_zero (by omega) (by omega))
  · rename_i h1 h2
    rw [natDigits_small h2, natDigits_step h1,
        natDigits_small (by omega : a / 10 < 10)] at h
    simp at h
    obtain ⟨h3, -⟩ := h
    exact absurd h3 (digitChar_ne_zero (by omega) (by omega))
  · exact natDigits_injective h

theorem extendSeg_length_le (fs : Dirs) (result_parts : List String)
    (segment : String) (l : List String) :
    (extendSeg fs result_parts segment l).2.length ≤ l.length := by
  induction l generalizing segment with
  | nil => simp [extendSeg]
  | cons p rest ih =>
      simp only [extendSeg]
      split
      · exact le_trans (ih _) (by simp)
      · split
        · exact le_trans (ih _) (by simp)
        · simp

theorem replaceChar_comp (name : String) :
    sanitizeProjectName name = sanitizeSpec name := by
  unfold sanitizeProjectName sanitizeSpec replaceChar
  simp only [List.map_map]
  congr 1
  apply List.map_congr_left
  intro c _
  by_cases h1 : c = '/' <;> by_cases h2 : c = '\\' <;> simp [h1, h2, Function.comp]

/-- C5: for every configuration, project name and date, `generate_output_path`
with structure `date` yields `root/YYYY/MM/DD/<sanitized>.md` with zero-padded
month and day, and with structure `project` yields
`root/<sanitized>/YYYY-MM-DD.md`, where sanitization replaces path-separator
characters with `-`; in particular the project name `github.com/user/repo`
yields the filename component `github.com-user-repo`. -/
theorem generate_output_path_layout :
    (∀ (config : Config) (name : String) (d : Timestamp),
        generate_output_path config name d =
          generateOutputPathSpec config.output.repository config.output.structure' name d)
    ∧ sanitizeProjectName "github.com/user/repo" = "github.com-user-repo"
    ∧ (∀ (repo : List String) (sc : SyncConfig) (al : List (String × String)),
        generate_output_path ⟨⟨repo, "date"⟩, sc, al⟩ "my-project"
            ⟨2024, 1, 15, 10, 30, 0, 0, none⟩
          = repo ++ ["2024", "01", "15", "my-project.md"]
        ∧ generate_output_path ⟨⟨repo, "project"⟩, sc, al⟩ "my-project"
            ⟨2024, 1, 15, 10, 30, 0, 0, none⟩
          = repo ++ ["my-project", "2024-01-15.md"]) := by
  refine ⟨fun config name d => ?_, by decide, fun repo sc al => ⟨?_, ?_⟩⟩
  · unfold generate_output_path generateOutputPathSpec
    rw [replaceChar_comp]
  · simp [generate_output_path]
    constructor
    · decide
    · decide
  · simp [generate_output_path]
    constructor
    · decide
    · decide

/-- C8: `get_git_remote_url` and `get_git_branch` map every failure of the
external git command (non-zero exit status, timeout, missing executable, OS
error) to `none`; both are total functions, so no exception propagates. -/
theorem git_query_failure_absent (r : RunResult) (h : r.failed) :
    get_git_remote_url r = none ∧ get_git_branch r = none := by
  cases r with
  | completed rc out =>
      simp [RunResult.failed] at h
      simp [get_git_remote_url, get_git_branch, h]
  | timedOut => exact ⟨rfl, rfl⟩
  | notFound => exact ⟨rfl, rfl⟩
  | osError => exact ⟨rfl, rfl⟩

theorem git_query_failure_absent_witness :
    get_git_remote_url RunResult.timedOut = none ∧
      get_git_branch RunResult.timedOut = none :=
  git_query_failure_absent RunResult.timedOut trivial

/-- C9: `check_push_permission` allows the push exactly when the visibility is
PRIVATE, or PUBLIC with `allow_public`, or UNKNOWN with `allow_unknown`; in
every disallowed case the result carries a non-empty warning message.  The
function is total, so it never raises. -/
theorem check_push_permission_allowed (v : RepositoryVisibility) (ap au : Bool) :
    ((check_push_permission v ap au).allowed = true ↔
      (v = RepositoryVisibility.PRIVATE ∨
        (v = RepositoryVisibility.PUBLIC ∧ ap = true) ∨
        (v = RepositoryVisibility.UNKNOWN ∧ au = true)))
    ∧ ((check_push_permission v ap au).allowed = false →
        (check_push_permission v ap au).warning_message.getD "" ≠ "") := by
  cases v <;> cases ap <;> cases au <;> exact ⟨by decide, by decide⟩

theorem check_push_permission_allowed_witness :
    ((check_push_permission RepositoryVisibility.PUBLIC false false).allowed = true ↔
      (RepositoryVisibility.PUBLIC = RepositoryVisibility.PRIVATE ∨
        (RepositoryVisibility.PUBLIC = RepositoryVisibility.PUBLIC ∧ false = true) ∨
        (RepositoryVisibility.PUBLIC = RepositoryVisibility.UNKNOWN ∧ false = true)))
    ∧ ((check_push_permission RepositoryVisibility.PUBLIC false false).allowed = false →
        (check_push_permission RepositoryVisibility.PUBLIC false false).warning_message.getD ""
          ≠ "") :=
  check_push_permission_allowed RepositoryVisibility.PUBLIC false false

/-- C6: evaluation of `decode_project_path` at the repository's own
multi-dash test scenario (`test_decode_path_with_multiple_dashes`): the
directory `/tmp/user/claude-code-journal` exists together with all its
intermediate directories, yet decoding its encoded name commits the unmerged
token `claude` (the partial merge `claude-code` does not exist as a
directory, so the greedy one-step extension stops) and returns
`/tmp/user/claude/code/journal` instead of the original path.  A
dotted-segment scenario that the code does recover is evaluated alongside. -/
theorem decode_project_path_multi_dash :
    decode_project_path [["tmp"], ["tmp", "user"], ["tmp", "user", "claude-code-journal"]]
        "-tmp-user-claude-code-journal"
      = ⟨true, ["tmp", "user", "claude", "code", "journal"]⟩
    ∧ (⟨true, ["tmp", "user", "claude", "code", "journal"]⟩ : PathT)
      ≠ ⟨true, ["tmp", "user", "claude-code-journal"]⟩
    ∧ decode_project_path [["tmp"], ["tmp", "ghq"], ["tmp", "ghq", "github.com"],
        ["tmp", "ghq", "github.com", "user"], ["tmp", "ghq", "github.com", "user", "repo"]]
        "-tmp-ghq-github-com-user-repo"
      = ⟨true, ["tmp", "ghq", "github.com", "user", "repo"]⟩ := by
  refine ⟨by decide, by decide, by decide⟩

theorem splitFirst_append {c : Char} (h r : List Char) (hh : c ∉ h) :
    splitFirst c (h ++ c :: r) = some (h, r) := by
  induction h with
  | nil => simp [splitFirst]
  | cons x xs ih =>
      have hx : x ≠ c := fun he => hh (he ▸ List.mem_cons_self x xs)
      simp only [List.cons_append, splitFirst, if_neg hx, List.append_eq]
      rw [ih (fun hm => hh (List.mem_cons_of_mem _ hm))]

theorem splitFirst_none {c : Char} {l : List Char} (h : c ∉ l) :
    splitFirst c l = none := by
  induction l with
  | nil => rfl
  | cons x xs ih =>
      have hx : x ≠ c := fun he => h (he ▸ List.mem_cons_self x xs)
      simp only [splitFirst, if_neg hx]
      rw [ih (fun hm => h (List.mem_cons_of_mem _ hm))]

theorem matchScp_none {l : List Char} (h : ("git@".data).isPrefixOf l = false) :
    matchScp l = none := by
  simp [matchScp, h]

theorem matchSshUrl_none {l : List Char}
    (h : ("ssh://git@".data).isPrefixOf l = false) : matchSshUrl l = none := by
  simp [matchSshUrl, h]

theorem takeWhile_no_newline {path : List Char} (h : '\n' ∉ path) :
    path.takeWhile (fun c => c ≠ '\n') = path := by
  refine List.takeWhile_eq_self_iff.mpr ?_
  intro a ha
  have hne : a ≠ '\n' := fun he => h (he ▸ ha)
  simp [hne]

theorem matchScp_eq (host path : List Char) (h1 : host ≠ []) (h2 : ':' ∉ host)
    (h3 : path ≠ []) (h4 : '\n' ∉ path) :
    matchScp ("git@".data ++ host ++ ':' :: path) = some (host ++ '/' :: path) := by
  have hpre : ("git@".data).isPrefixOf ("git@".data ++ host ++ ':' :: path) = true := by
    rw [List.append_assoc, List.isPrefixOf_iff_prefix]
    exact List.prefix_append _ _
  have hdrop : ("git@".data ++ host ++ ':' :: path).drop 4 = host ++ ':' :: path := by
    rw [List.append_assoc]
    exact List.drop_left' rfl
  simp only [matchScp, hpre, if_true, hdrop, splitFirst_append host path h2,
    takeWhile_no_newline h4]
  simp [h1, h3]

theorem matchSshUrl_eq (host path : List Char) (h1 : host ≠ []) (h2 : '/' ∉ host)
    (h3 : path ≠ []) (h4 : '\n' ∉ path) :
    matchSshUrl ("ssh://git@".data ++ host ++ '/' :: path)
      = some (host ++ '/' :: path) := by
  have hpre : ("ssh://git@".data).isPrefixOf ("ssh://git@".data ++ host ++ '/' :: path)
      = true := by
    rw [List.append_assoc, List.isPrefixOf_iff_prefix]
    exact List.prefix_append _ _
  have hdrop : ("ssh://git@".data ++ host ++ '/' :: path).drop 10 = host ++ '/' :: path := by
    rw [List.append_assoc]
    exact List.drop_left' rfl
  simp only [matchSshUrl, hpre, if_true, hdrop, splitFirst_append host path h2,
    takeWhile_no_newline h4]
  simp [h1, h3]

theorem matchHttps_eq_https (host path : List Char) (h1 : host ≠ []) (h2 : '/' ∉ host)
    (h3 : path ≠ []) (h4 : '\n' ∉ path) :
    matchHttps ("https://".data ++ host ++ '/' :: path)
      = some (host ++ '/' :: path) := by
  have hpre : ("https://".data).isPrefixOf ("https://".data ++ host ++ '/' :: path)
      = true := by
    rw [List.append_assoc, List.isPrefixOf_iff_prefix]
    exact List.prefix_append _ _
  have hdrop : ("https://".data ++ host ++ '/' :: path).drop 8 = host ++ '/' :: path := by
    rw [List.append_assoc]
    exact List.drop_left' rfl
  simp only [matchHttps, hpre, if_true, hdrop, splitFirst_append host path h2,
    takeWhile_no_newline h4]
  simp [h1, h3]

theorem matchHttps_eq_http (host path : List Char) (h1 : host ≠ []) (h2 : '/' ∉ host)
    (h3 : path ≠ []) (h4 : '\n' ∉ path) :
    matchHttps ("http://".data ++ host ++ '/' :: path)
      = some (host ++ '/' :: path) := by
  have hpre1 : ("https://".data).isPrefixOf ("http://".data ++ host ++ '/' :: path)
      = false := rfl
  have hpre : ("http://".data).isPrefixOf ("http://".data ++ host ++ '/' :: path)
      = true := by
    rw [List.append_assoc, List.isPrefixOf_iff_prefix]
    exact List.prefix_append _ _
  have hdrop : ("http://".data ++ host ++ '/' :: path).drop 7 = host ++ '/' :: path := by
    rw [List.append_assoc]
    exact List.drop_left' rfl
  simp only [matchHttps, hpre1, hpre, if_true, Bool.false_eq_true, if_false, hdrop,
    splitFirst_append host path h2, takeWhile_no_newline h4]
  simp [h1, h3]

theorem stripDotGit_append (X : List Char) :
    stripDotGit (X ++ ".git".data) = X := by
  have hs : (".git".data).isSuffixOf (X ++ ".git".data) = true := by
    rw [List.isSuffixOf_iff_suffix]
    exact List.suffix_append _ _
  have hlen : (X ++ ".git".data).length - 4 = X.length := by
    simp [List.length_append]
  simp only [stripDotGit, hs, if_true, hlen]
  exact List.take_left X _

theorem stripDotGit_of_no_suffix {l : List Char}
    (h : (".git".data).isSuffixOf l = false) : stripDotGit l = l := by
  simp [stripDotGit, h]

/-- C7 counterexample: the SCP-style pattern of `normalize_remote_url`
requires the literal user `git`; an SCP-style URL with any other user, such
as `alice@github.com:org/repo`, matches none of the patterns and is returned
unchanged rather than normalized to `github.com/org/repo`. -/
theorem normalize_remote_url_nongit_user :
    normalize_remote_url "alice@github.com:org/repo" = "alice@github.com:org/repo"
    ∧ "alice@github.com:org/repo" ≠ "github.com/org/repo" := by
  refine ⟨by decide, by decide⟩

/-- C7 (amended): `normalize_remote_url` first strips a trailing `.git`
suffix and then, for every SCP-style URL with user `git`
(`git@host:org/repo`), returns `host/org/repo`; likewise it extracts
`host/org/repo` from the `ssh://git@host/...` and `http(s)://host/...` URL
forms, matched in that order; inputs matching none of the patterns (here:
containing no `:` at all) are returned unchanged after the suffix strip. -/
theorem normalize_remote_url_forms :
    (∀ host path : List Char, host ≠ [] → ':' ∉ host → path ≠ [] → '\n' ∉ path →
      normalizeChars ("git@".data ++ host ++ ':' :: (path ++ ".git".data))
          = host ++ '/' :: path
        ∧ ((".git".data).isSuffixOf ("git@".data ++ host ++ ':' :: path) = false →
            normalizeChars ("git@".data ++ host ++ ':' :: path) = host ++ '/' :: path))
    ∧ (∀ host path : List Char, host ≠ [] → '/' ∉ host → path ≠ [] → '\n' ∉ path →
        (".git".data).isSuffixOf ("ssh://git@".data ++ host ++ '/' :: path) = false →
        normalizeChars ("ssh://git@".data ++ host ++ '/' :: path) = host ++ '/' :: path)
    ∧ (∀ host path : List Char, host ≠ [] → '/' ∉ host → path ≠ [] → '\n' ∉ path →
        (".git".data).isSuffixOf ("https://".data ++ host ++ '/' :: path) = false →
        normalizeChars ("https://".data ++ host ++ '/' :: path) = host ++ '/' :: path)
    ∧ (∀ host path : List Char, host ≠ [] → '/' ∉ host → path ≠ [] → '\n' ∉ path →
        (".git".data).isSuffixOf ("http://".data ++ host ++ '/' :: path) = false →
        normalizeChars ("http://".data ++ host ++ '/' :: path) = host ++ '/' :: path)
    ∧ (∀ url : List Char, ':' ∉ url → (".git".data).isSuffixOf url = false →
        normalizeChars url = url) := by
  refine ⟨?_, ?_, ?_, ?_, ?_⟩
  · intro host path h1 h2 h3 h4
    constructor
    · have hx : "git@".data ++ host ++ ':' :: (path ++ ".git".data)
          = ("git@".data ++ host ++ ':' :: path) ++ ".git".data := by
        simp
      rw [normalizeChars, hx, stripDotGit_append, matchScp_eq host path h1 h2 h3 h4]
    · intro hng
      rw [normalizeChars, stripDotGit_of_no_suffix hng,
        matchScp_eq host path h1 h2 h3 h4]
  · intro host path h1 h2 h3 h4 hng
    have hscp : matchScp ("ssh://git@".data ++ host ++ '/' :: path) = none := by
      rw [List.append_assoc]
      exact matchScp_none rfl
    rw [normalizeChars, stripDotGit_of_no_suffix hng, hscp,
      matchSshUrl_eq host path h1 h2 h3 h4]
  · intro host path h1 h2 h3 h4 hng
    have hscp : matchScp ("https://".data ++ host ++ '/' :: path) = none := by
      rw [List.append_assoc]
      exact matchScp_none rfl
    have hssh : matchSshUrl ("https://".data ++ host ++ '/' :: path) = none := by
      rw [List.append_assoc]
      exact matchSshUrl_none rfl
    rw [normalizeChars, stripDotGit_of_no_suffix hng, hscp, hssh,
      matchHttps_eq_https host path h1 h2 h3 h4]
  · intro host path h1 h2 h3 h4 hng
    have hscp : matchScp ("http://".data ++ host ++ '/' :: path) = none := by
      rw [List.append_assoc]
      exact matchScp_none rfl
    have hssh : matchSshUrl ("http://".data ++ host ++ '/' :: path) = none := by
      rw [List.append_assoc]
      exact matchSshUrl_none rfl
    rw [normalizeChars, stripDotGit_of_no_suffix hng, hscp, hssh,
      matchHttps_eq_http host path h1 h2 h3 h4]
  · intro url hc hng
    have hscp : matchScp url = none := by
      unfold matchScp
      split
      · have : splitFirst ':' (url.drop 4) = none :=
          splitFirst_none (fun hm => hc (List.mem_of_mem_drop hm))
        rw [this]
      · rfl
    have hssh : matchSshUrl url = none := by
      apply matchSshUrl_none
      by_contra hb
      have hpre : ("ssh://git@".data) <+: url := by
        rw [← List.isPrefixOf_iff_prefix]
        simpa using hb
      obtain ⟨t, ht⟩ := hpre
      exact hc (ht ▸ List.mem_append_left t (by decide))
    have hhttp : matchHttps url = none := by
      unfold matchHttps
      have hp1 : ("https://".data).isPrefixOf url = false := by
        by_contra hb
        have hpre : ("https://".data) <+: url := by
          rw [← List.isPrefixOf_iff_prefix]
          simpa using hb
        obtain ⟨t, ht⟩ := hpre
        exact hc (ht ▸ List.mem_append_left t (by decide))
      have hp2 : ("http://".data).isPrefixOf url = false := by
        by_contra hb
        have hpre : ("http://".data) <+: url := by
          rw [← List.isPrefixOf_iff_prefix]
          simpa using hb
        obtain ⟨t, ht⟩ := hpre
        exact hc (ht ▸ List.mem_append_left t (by decide))
      simp [hp1, hp2]
    rw [normalizeChars, stripDotGit_of_no_suffix hng, hscp, hssh, hhttp]

theorem normalize_remote_url_forms_witness :
    normalizeChars ("git@".data ++ "github.com".data ++ ':' ::
        ("user/repo".data ++ ".git".data))
      = "github.com".data ++ '/' :: "user/repo".data := by
  exact (normalize_remote_url_forms.1 "github.com".data "user/repo".data
    (by decide) (by decide) (by decide) (by decide)).1

theorem dayLt_asymm {a b : Timestamp} (h1 : dayLt a b) (h2 : dayLt b a) : False := by
  unfold dayLt at h1 h2
  omega

theorem groupByKeyAux_fuel {K V : Type} [DecidableEq K] {f1 f2 : Nat}
    {l : List (K × V)} (h1 : l.length ≤ f1) (h2 : l.length ≤ f2) :
    groupByKeyAux f1 l = groupByKeyAux f2 l := by
  induction f1 using Nat.strong_induction_on generalizing f2 l with
  | _ f1 ih =>
    match f1, f2, l with
    | 0, 0, l => rfl
    | 0, f2 + 1, l =>
        have : l = [] := by
          cases l
          · rfl
          · simp at h1
        subst this
        rfl
    | f1 + 1, 0, l =>
        have : l = [] := by
          cases l
          · rfl
          · simp at h2
        subst this
        rfl
    | f1 + 1, f2 + 1, [] => rfl
    | f1 + 1, f2 + 1, (k, v) :: rest =>
        simp only [groupByKeyAux]
        congr 1
        have hle : (rest.filter (fun p => decide (¬ p.1 = k))).length ≤ rest.length :=
          List.length_filter_le _ _
        simp only [List.length_cons] at h1 h2
        exact ih f1 (by omega) (by omega) (by omega)

theorem groupByKey_nil {K V : Type} [DecidableEq K] :
    groupByKey ([] : List (K × V)) = [] := rfl

theorem groupByKey_cons {K V : Type} [DecidableEq K] (k : K) (v : V)
    (rest : List (K × V)) :
    groupByKey ((k, v) :: rest) =
      (k, v :: (rest.filter (fun p => decide (p.1 = k))).map Prod.snd) ::
        groupByKey (rest.filter (fun p => decide (¬ p.1 = k))) := by
  show groupByKeyAux (rest.length + 1) _ = _
  simp only [groupByKeyAux]
  congr 1
  exact groupByKeyAux_fuel (le_trans (List.length_filter_le _ _) (by omega))
    (le_refl _)

theorem groupByKey_of_pairwise (pairs : List (Timestamp × Message))
    (hp : pairs.Pairwise (fun a b => a.1 = b.1 ∨ dayLt a.1 b.1)) :
    (groupByKey pairs).flatMap (fun kv => kv.2) = pairs.map Prod.snd ∧
      List.Chain' (fun g1 g2 => dayLt g1.1 g2.1) (groupByKey pairs) := by
  induction pairs with
  | nil => exact ⟨rfl, by simp [groupByKey_nil]⟩
  | cons hd rest ih =>
    obtain ⟨k, v⟩ := hd
    rw [List.pairwise_cons] at hp
    obtain ⟨hhead, hrest⟩ := hp
    match rest, hrest with
    | [], _ =>
        refine ⟨?_, ?_⟩
        · rw [groupByKey_cons]
          simp [groupByKey_nil]
        · rw [groupByKey_cons]
          simp [groupByKey_nil]
    | (k2, v2) :: rest2, hrest =>
        by_cases hk : k2 = k
        · subst hk
          obtain ⟨hflat, hchain⟩ := ih hrest
          rw [groupByKey_cons] at hflat hchain
          rw [groupByKey_cons]
          have hfpos : ((k2, v2) :: rest2).filter (fun p => decide (p.1 = k2))
              = (k2, v2) :: rest2.filter (fun p => decide (p.1 = k2)) := by simp
          have hfneg : ((k2, v2) :: rest2).filter (fun p => decide (¬ p.1 = k2))
              = rest2.filter (fun p => decide (¬ p.1 = k2)) := by simp
          rw [hfpos, hfneg]
          refine ⟨?_, ?_⟩
          · have hflat2 : (rest2.filter (fun p => decide (p.1 = k2))).map Prod.snd ++
                (groupByKey (rest2.filter (fun p => !decide (p.1 = k2)))).flatMap
                  (fun kv => kv.2)
                = rest2.map Prod.snd := by
              simpa [decide_not] using hflat
            simp [hflat2, decide_not]
          · cases hG : groupByKey (rest2.filter (fun p => decide (¬ p.1 = k2))) with
            | nil => exact List.chain'_singleton _
            | cons g G2 =>
                rw [hG] at hchain
                rw [List.chain'_cons] at hchain ⊢
                exact ⟨hchain.1, hchain.2⟩
        · have hkk2 : dayLt k k2 := by
            rcases hhead (k2, v2) (List.mem_cons_self _ _) with h | h
            · exact absurd h.symm hk
            · exact h
          have hnone : ∀ p ∈ (k2, v2) :: rest2, ¬ p.1 = k := by
            intro p hp hpk
            rcases List.mem_cons.mp hp with heq | hp2
            · exact hk (by rw [heq] at hpk; exact hpk)
            · rw [List.pairwise_cons] at hrest
              rcases hrest.1 p hp2 with h | h
              · exact hk (by rw [← h] at hpk; exact hpk)
              · exact dayLt_asymm hkk2 (by rw [hpk] at h; exact h)
          obtain ⟨hflat, hchain⟩ := ih hrest
          rw [groupByKey_cons]
          have hf1 : ((k2, v2) :: rest2).filter (fun p => decide (p.1 = k)) = [] := by
            rw [List.filter_eq_nil_iff]
            intro p hp
            simpa using hnone p hp
          have hf2 : ((k2, v2) :: rest2).filter (fun p => decide (¬ p.1 = k))
              = (k2, v2) :: rest2 := by
            rw [List.filter_eq_self]
            intro p hp
            simpa using hnone p hp
          rw [hf1, hf2]
          refine ⟨?_, ?_⟩
          · simp only [List.flatMap_cons, List.map_nil, List.map_cons]
            rw [hflat]
            rfl
          · rw [groupByKey_cons] at hchain ⊢
            exact List.chain'_cons.mpr ⟨hkk2, hchain⟩

theorem sortByDay_sorted {l : List (Timestamp × ProjectSession)}
    (h : List.Chain' (fun g1 g2 => dayLt g1.1 g2.1) l) : sortByDay l = l := by
  induction l with
  | nil => rfl
  | cons x xs ih =>
      have hx : sortByDay (x :: xs) = insertByDay x (sortByDay xs) := rfl
      rw [hx, ih h.tail]
      cases xs with
      | nil => rfl
      | cons y ys =>
          have hxy : dayLt x.1 y.1 := (List.chain'_cons.mp h).1
          simp [insertByDay, hxy]

/-- C3 counterexample: for the concrete session whose two messages appear in
reverse day order, concatenating the messages of the `split_session_by_date`
sub-sessions across the day keys in ascending day order yields the messages
day-sorted, not the original sequence — the claim's universal ordering
property fails for sessions whose messages are not day-monotone. -/
theorem split_session_out_of_order :
    concatInDayOrder (split_session_by_date outOfOrderSession)
      ≠ outOfOrderSession.messages := by
  decide

/-- C3 (amended): for every session whose messages are in non-decreasing
calendar-day order (each pair of messages, in list order, has equal day keys
or strictly increasing calendar days), concatenating the messages of the
`split_session_by_date` sub-sessions across day keys in ascending day order
reproduces the original message sequence exactly; and splitting an
empty-message session yields an empty mapping, never a single empty entry. -/
theorem split_session_by_date_order :
    (∀ s : ProjectSession,
      s.messages.Pairwise (fun a b =>
        truncateDay a.timestamp = truncateDay b.timestamp ∨
          dayLt (truncateDay a.timestamp) (truncateDay b.timestamp)) →
      concatInDayOrder (split_session_by_date s) = s.messages)
    ∧ ∀ s : ProjectSession, s.messages = [] → split_session_by_date s = [] := by
  constructor
  · intro s hp
    have hp' : (s.messages.map (fun m => (truncateDay m.timestamp, m))).Pairwise
        (fun a b => a.1 = b.1 ∨ dayLt a.1 b.1) := by
      rw [List.pairwise_map]
      exact hp
    obtain ⟨hflat, hchain⟩ :=
      groupByKey_of_pairwise (s.messages.map (fun m => (truncateDay m.timestamp, m))) hp'
    have hchain2 : List.Chain' (fun g1 g2 => dayLt g1.1 g2.1)
        (split_session_by_date s) := by
      unfold split_session_by_date
      rw [List.chain'_map]
      exact hchain
    unfold concatInDayOrder
    rw [sortByDay_sorted hchain2]
    unfold split_session_by_date
    rw [List.flatMap_map]
    show (groupByKey (s.messages.map (fun m => (truncateDay m.timestamp, m)))).flatMap
        (fun kv => kv.2) = s.messages
    rw [hflat, List.map_map]
    show s.messages.map (fun m => m) = s.messages
    exact List.map_id' s.messages
  · intro s hm
    unfold split_session_by_date
    rw [hm]
    rfl

theorem split_session_by_date_order_witness :
    concatInDayOrder (split_session_by_date
        ⟨"abc12345", "my-project", ⟨true, ["p"]⟩, none, [msgJan15, msgJan16]⟩)
      = [msgJan15, msgJan16] := by
  have h := split_session_by_date_order.1
    ⟨"abc12345", "my-project", ⟨true, ["p"]⟩, none, [msgJan15, msgJan16]⟩
    (by decide)
  exact h

theorem daysInMonth_bounds (y m : Nat) :
    28 ≤ daysInMonth y m ∧ daysInMonth y m ≤ 31 := by
  unfold daysInMonth
  split_ifs <;> omega

theorem nextDay_day_facts {t1 t2 : Timestamp} (hv : ValidDate t1)
    (hnext : dayTriple t2 = nextDayTriple t1.year t1.month t1.day) :
    t2.day ≠ t1.day ∧ t2.day ≤ 31 ∧ t1.day ≤ 31 := by
  obtain ⟨h1, h2, h3, h4⟩ := hv
  obtain ⟨hd28, hd31⟩ := daysInMonth_bounds t1.year t1.month
  unfold dayTriple nextDayTriple at hnext
  split_ifs at hnext with hc1 hc2 <;>
    simp only [Prod.mk.injEq] at hnext <;>
    obtain ⟨-, -, hdd⟩ := hnext <;>
    refine ⟨by omega, by omega, by omega⟩

theorem truncate_ne_of_day_ne {t1 t2 : Timestamp} (h : t2.day ≠ t1.day) :
    truncateDay t1 ≠ truncateDay t2 := by
  intro he
  exact h (congrArg Timestamp.day he).symm

theorem generate_output_path_date_ne (config : Config) (name : String)
    {d1 d2 : Timestamp} (hst : config.output.structure' = "date")
    (hd : d1.day ≠ d2.day) (hb1 : d1.day ≤ 31) (hb2 : d2.day ≤ 31) :
    generate_output_path config name d1 ≠ generate_output_path config name d2 := by
  intro he
  unfold generate_output_path at he
  rw [hst] at he
  rw [if_pos rfl, if_pos rfl] at he
  have hcomp := List.append_cancel_left he
  simp only [List.cons.injEq] at hcomp
  obtain ⟨-, -, h3, -⟩ := hcomp
  exact hd (pad2_injective (by omega) (by omega) (congrArg String.data h3))

/-- C1: when day-splitting is applied with structure `date` and dry run off,
a session whose two messages fall on consecutive calendar days makes the sync
grouping stage produce exactly two output files, one per day, each holding
only the sub-session with that day's message, and the two output paths are
distinct. -/
theorem sync_plan_splits_consecutive_days (config : Config) (s : ProjectSession)
    (m1 m2 : Message) (hst : config.output.structure' = "date")
    (hm : s.messages = [m1, m2]) (hv : ValidDate m1.timestamp)
    (hnext : dayTriple m2.timestamp
      = nextDayTriple m1.timestamp.year m1.timestamp.month m1.timestamp.day) :
    sync_plan config [s]
      = [(generate_output_path config s.project_name (truncateDay m1.timestamp),
            [{ s with messages := [m1] }]),
         (generate_output_path config s.project_name (truncateDay m2.timestamp),
            [{ s with messages := [m2] }])]
    ∧ generate_output_path config s.project_name (truncateDay m1.timestamp)
        ≠ generate_output_path config s.project_name (truncateDay m2.timestamp) := by
  obtain ⟨hd, hb2, hb1⟩ := nextDay_day_facts hv hnext
  have hAB : truncateDay m1.timestamp ≠ truncateDay m2.timestamp :=
    truncate_ne_of_day_ne hd
  have hBA : truncateDay m2.timestamp ≠ truncateDay m1.timestamp := Ne.symm hAB
  have hsplit : split_session_by_date s
      = [(truncateDay m1.timestamp, { s with messages := [m1] }),
         (truncateDay m2.timestamp, { s with messages := [m2] })] := by
    unfold split_session_by_date
    rw [hm]
    simp only [List.map_cons, List.map_nil]
    rw [groupByKey_cons]
    have h1 : ([(truncateDay m2.timestamp, m2)] :
        List (Timestamp × Message)).filter
        (fun p => decide (p.1 = truncateDay m1.timestamp)) = [] := by
      simp [hBA]
    have h2 : ([(truncateDay m2.timestamp, m2)] :
        List (Timestamp × Message)).filter
        (fun p => decide (¬ p.1 = truncateDay m1.timestamp))
        = [(truncateDay m2.timestamp, m2)] := by
      simp [hBA]
    rw [h1, h2, groupByKey_cons]
    simp [groupByKey_nil]
  have hkBA : (s.project_name, truncateDay m2.timestamp)
      ≠ (s.project_name, truncateDay m1.timestamp) := by
    simp [hBA]
  have hplan : sync_plan config [s]
      = [(generate_output_path config s.project_name (truncateDay m1.timestamp),
            [{ s with messages := [m1] }]),
         (generate_output_path config s.project_name (truncateDay m2.timestamp),
            [{ s with messages := [m2] }])] := by
    unfold sync_plan
    simp only [List.isEmpty_cons, Bool.false_eq_true, if_false]
    simp only [List.flatMap_cons, List.flatMap_nil, List.append_nil]
    rw [hsplit]
    simp only [List.map_cons, List.map_nil, List.filterMap_cons, List.filterMap_nil]
    rw [groupByKey_cons]
    have h1 : ([((s.project_name, truncateDay m2.timestamp),
          ({ s with messages := [m2] } : ProjectSession))] :
        List ((String × Timestamp) × ProjectSession)).filter
        (fun p => decide (p.1 = (s.project_name, truncateDay m1.timestamp))) = [] := by
      simp [hBA]
    have h2 : ([((s.project_name, truncateDay m2.timestamp),
          ({ s with messages := [m2] } : ProjectSession))] :
        List ((String × Timestamp) × ProjectSession)).filter
        (fun p => decide (¬ p.1 = (s.project_name, truncateDay m1.timestamp)))
        = [((s.project_name, truncateDay m2.timestamp),
            ({ s with messages := [m2] } : ProjectSession))] := by
      simp [hBA]
    rw [h1, h2, groupByKey_cons]
    simp [groupByKey_nil]
  exact ⟨hplan, generate_output_path_date_ne config s.project_name hst
    (by exact Ne.symm hd) hb1 hb2⟩

theorem sync_plan_splits_consecutive_days_witness :
    sync_plan ⟨⟨["repo"], "date"⟩, ⟨true, true⟩, []⟩
        [⟨"abc12345", "my-project", ⟨true, ["p"]⟩, none, [msgJan15, msgJan16]⟩]
      = [(["repo", "2024", "01", "15", "my-project.md"],
            [⟨"abc12345", "my-project", ⟨true, ["p"]⟩, none, [msgJan15]⟩]),
         (["repo", "2024", "01", "16", "my-project.md"],
            [⟨"abc12345", "my-project", ⟨true, ["p"]⟩, none, [msgJan16]⟩])] := by
  have h := (sync_plan_splits_consecutive_days
    ⟨⟨["repo"], "date"⟩, ⟨true, true⟩, []⟩
    ⟨"abc12345", "my-project", ⟨true, ["p"]⟩, none, [msgJan15, msgJan16]⟩
    msgJan15 msgJan16 rfl rfl (by decide) (by decide)).1
  rw [h]
  decide

theorem natDigits_two {n : Nat} (h1 : 10 ≤ n) (h2 : n < 100) :
    natDigits n = [digitChar (n / 10), digitChar (n % 10)] := by
  rw [natDigits_step (by omega), natDigits_small (by omega)]
  rfl

theorem pad2_eq {n : Nat} (h : n < 100) :
    pad2 n = [digitChar (n / 10), digitChar (n % 10)] := by
  by_cases h10 : n < 10
  · rw [pad2, if_pos h10, natDigits_small h10,
      Nat.div_eq_of_lt h10, Nat.mod_eq_of_lt h10]
    rfl
  · rw [pad2, if_neg h10, natDigits_two (by omega) h]

theorem natDigits_mul100_add {a b : Nat} (ha : 1 ≤ a) (hb : b < 100) :
    natDigits (a * 100 + b)
      = natDigits a ++ [digitChar (b / 10), digitChar (b % 10)] := by
  have h1 : ¬ a * 100 + b < 10 := by omega
  have h2 : ¬ (a * 100 + b) / 10 < 10 := by omega
  rw [natDigits_step h1, natDigits_step h2]
  have e1 : (a * 100 + b) / 10 / 10 = a := by omega
  have e2 : (a * 100 + b) / 10 % 10 = b / 10 := by omega
  have e3 : (a * 100 + b) % 10 = b % 10 := by omega
  rw [e1, e2, e3, List.append_assoc]
  rfl

theorem pad4_decomp {n : Nat} (h : n < 10000) :
    pad4 n = pad2 (n / 100) ++ pad2 (n % 100) := by
  by_cases hc : n < 100
  · have hz : n / 100 = 0 := by omega
    have hm : n % 100 = n := by omega
    rw [hz, hm]
    by_cases h10 : n < 10
    · rw [pad4, if_pos h10, pad2, if_pos (by omega : (0:Nat) < 10),
        natDigits_small (by omega : (0:Nat) < 10), pad2, if_pos h10]
      rfl
    · rw [pad4, if_neg h10, if_pos hc, pad2, if_pos (by omega : (0:Nat) < 10),
        natDigits_small (by omega : (0:Nat) < 10), pad2, if_neg h10]
      rfl
  · have hsplit : n = n / 100 * 100 + n % 100 := by omega
    have hdig : natDigits n
        = natDigits (n / 100) ++ [digitChar (n % 100 / 10), digitChar (n % 100 % 10)] := by
      conv_lhs => rw [hsplit]
      rw [natDigits_mul100_add (by omega) (by omega)]
    rw [pad2_eq (by omega : n % 100 < 100)]
    by_cases hc3 : n < 1000
    · rw [pad4, if_neg (by omega), if_neg (by omega), if_pos hc3, hdig,
        pad2, if_pos (by omega : n / 100 < 10), natDigits_small (by omega)]
      rfl
    · rw [pad4, if_neg (by omega), if_neg (by omega), if_neg hc3, hdig,
        pad2, if_neg (by omega : ¬ n / 100 < 10)]

theorem pad6_decomp {n : Nat} (h : n < 1000000) :
    pad6 n = pad4 (n / 100) ++ pad2 (n % 100) := by
  by_cases hc : n < 100
  · have hz : n / 100 = 0 := by omega
    have hm : n % 100 = n := by omega
    rw [hz, hm, pad4, if_pos (by omega : (0:Nat) < 10),
      natDigits_small (by omega : (0:Nat) < 10)]
    by_cases h10 : n < 10
    · rw [pad6, if_pos h10, pad2, if_pos h10]
      rfl
    · rw [pad6, if_neg h10, if_pos (by omega), pad2, if_neg h10]
      rfl
  · have hsplit : n = n / 100 * 100 + n % 100 := by omega
    have hdig : natDigits n
        = natDigits (n / 100) ++ [digitChar (n % 100 / 10), digitChar (n % 100 % 10)] := by
      conv_lhs => rw [hsplit]
      rw [natDigits_mul100_add (by omega) (by omega)]
    rw [pad2_eq (by omega : n % 100 < 100)]
    by_cases hc3 : n < 1000
    · rw [pad6, if_neg (by omega), if_neg (by omega), if_pos hc3, hdig,
        pad4, if_pos (by omega : n / 100 < 10), natDigits_small (by omega)]
      rfl
    · by_cases hc4 : n < 10000
      · rw [pad6, if_neg (by omega), if_neg (by omega), if_neg hc3, if_pos hc4, hdig,
          pad4, if_neg (by omega : ¬ n / 100 < 10), if_pos (by omega : n / 100 < 100)]
        rfl
      · by_cases hc5 : n < 100000
        · rw [pad6, if_neg (by omega), if_neg (by omega), if_neg hc3, if_neg hc4,
            if_pos hc5, hdig, pad4, if_neg (by omega : ¬ n / 100 < 10),
            if_neg (by omega : ¬ n / 100 < 100), if_pos (by omega : n / 100 < 1000)]
          rfl
        · rw [pad6, if_neg (by omega), if_neg (by omega), if_neg hc3, if_neg hc4,
            if_neg hc5, hdig, pad4, if_neg (by omega : ¬ n / 100 < 10),
            if_neg (by omega : ¬ n / 100 < 100), if_neg (by omega : ¬ n / 100 < 1000)]

theorem readDigit_digitChar {k : Nat} (h : k < 10) (rest : List Char) :
    readDigit (digitChar k :: rest) = some (k, rest) := by
  simp [readDigit, digitVal_digitChar h]

theorem read2_pad2 {n : Nat} (h : n < 100) (rest : List Char) :
    read2 (pad2 n ++ rest) = some (n, rest) := by
  rw [pad2_eq h]
  simp only [List.cons_append, List.nil_append, read2,
    readDigit_digitChar (show n / 10 < 10 by omega),
    readDigit_digitChar (show n % 10 < 10 by omega)]
  simp only [Option.some.injEq, Prod.mk.injEq]
  exact ⟨by omega, trivial⟩

theorem read4_pad4 {n : Nat} (h : n < 10000) (rest : List Char) :
    read4 (pad4 n ++ rest) = some (n, rest) := by
  rw [pad4_decomp h, List.append_assoc]
  simp only [read4, read2_pad2 (show n / 100 < 100 by omega),
    read2_pad2 (show n % 100 < 100 by omega)]
  simp only [Option.some.injEq, Prod.mk.injEq]
  exact ⟨by omega, trivial⟩

theorem read6_pad6 {n : Nat} (h : n < 1000000) (rest : List Char) :
    read6 (pad6 n ++ rest) = some (n, rest) := by
  rw [pad6_decomp h, List.append_assoc]
  simp only [read6, read4_pad4 (show n / 100 < 10000 by omega),
    read2_pad2 (show n % 100 < 100 by omega)]
  simp only [Option.some.injEq, Prod.mk.injEq]
  exact ⟨by omega, trivial⟩

theorem expectChar_cons (c : Char) (l : List Char) :
    expectChar c (c :: l) = some l := by
  simp [expectChar]

theorem dropWhile_no_ws {l : List Char} (h : ∀ c ∈ l, isWsChar c = false) :
    l.dropWhile isWsChar = l := by
  cases l with
  | nil => rfl
  | cons c cs =>
      rw [List.dropWhile_cons, h c (List.mem_cons_self c cs)]
      simp

theorem trimChars_eq_self {l : List Char} (h : ∀ c ∈ l, isWsChar c = false) :
    trimChars l = l := by
  unfold trimChars
  rw [dropWhile_no_ws h, dropWhile_no_ws (fun c hc => h c (List.mem_reverse.mp hc)),
    List.reverse_reverse]

theorem natDigits_all_digits {n : Nat} :
    ∀ c ∈ natDigits n, ∃ k, k < 10 ∧ c = digitChar k := by
  induction n using Nat.strong_induction_on with
  | _ n ih =>
    intro c hc
    by_cases hs : n < 10
    · rw [natDigits_small hs] at hc
      simp at hc
      exact ⟨n, hs, hc⟩
    · rw [natDigits_step hs] at hc
      rcases List.mem_append.mp hc with h1 | h1
      · exact ih (n / 10) (Nat.div_lt_self (by omega) (by omega)) c h1
      · simp at h1
        exact ⟨n % 10, Nat.mod_lt _ (by omega), h1⟩

theorem digit_not_ws {k : Nat} (h : k < 10) : isWsChar (digitChar k) = false := by
  interval_cases k <;> decide

theorem natDigits_no_ws {n : Nat} : ∀ c ∈ natDigits n, isWsChar c = false := by
  intro c hc
  obtain ⟨k, hk, he⟩ := natDigits_all_digits c hc
  rw [he]
  exact digit_not_ws hk

theorem no_ws_cons {a : Char} {l : List Char} (ha : isWsChar a = false)
    (h : ∀ c ∈ l, isWsChar c = false) : ∀ c ∈ a :: l, isWsChar c = false := by
  intro c hc
  rcases List.mem_cons.mp hc with he | hm
  · rw [he]; exact ha
  · exact h c hm

theorem no_ws_append {l1 l2 : List Char} (h1 : ∀ c ∈ l1, isWsChar c = false)
    (h2 : ∀ c ∈ l2, isWsChar c = false) : ∀ c ∈ l1 ++ l2, isWsChar c = false := by
  intro c hc
  rcases List.mem_append.mp hc with hm | hm
  · exact h1 c hm
  · exact h2 c hm

theorem pad2_no_ws {n : Nat} : ∀ c ∈ pad2 n, isWsChar c = false := by
  unfold pad2
  split
  · exact no_ws_cons (by decide) natDigits_no_ws
  · exact natDigits_no_ws

theorem pad4_no_ws {n : Nat} : ∀ c ∈ pad4 n, isWsChar c = false := by
  unfold pad4
  split
  · exact no_ws_cons (by decide) (no_ws_cons (by decide)
      (no_ws_cons (by decide) natDigits_no_ws))
  · split
    · exact no_ws_cons (by decide) (no_ws_cons (by decide) natDigits_no_ws)
    · split
      · exact no_ws_cons (by decide) natDigits_no_ws
      · exact natDigits_no_ws

theorem pad6_no_ws {n : Nat} : ∀ c ∈ pad6 n, isWsChar c = false := by
  unfold pad6
  split
  · exact no_ws_cons (by decide) (no_ws_cons (by decide) (no_ws_cons (by decide)
      (no_ws_cons (by decide) (no_ws_cons (by decide) natDigits_no_ws))))
  · split
    · exact no_ws_cons (by decide) (no_ws_cons (by decide)
        (no_ws_cons (by decide) (no_ws_cons (by decide) natDigits_no_ws)))
    · split
      · exact no_ws_cons (by decide) (no_ws_cons (by decide)
          (no_ws_cons (by decide) natDigits_no_ws))
      · split
        · exact no_ws_cons (by decide) (no_ws_cons (by decide) natDigits_no_ws)
        · split
          · exact no_ws_cons (by decide) natDigits_no_ws
          · exact natDigits_no_ws

theorem offsetChars_no_ws {o : Int} : ∀ c ∈ offsetChars o, isWsChar c = false := by
  unfold offsetChars
  refine no_ws_cons ?_ (no_ws_append pad2_no_ws (no_ws_cons (by decide) pad2_no_ws))
  split
  · decide
  · decide

theorem iso_format_no_ws (t : Timestamp) : ∀ c ∈ iso_format t, isWsChar c = false := by
  unfold iso_format
  refine no_ws_append pad4_no_ws (no_ws_cons (by decide)
    (no_ws_append pad2_no_ws (no_ws_cons (by decide)
      (no_ws_append pad2_no_ws (no_ws_cons (by decide)
        (no_ws_append pad2_no_ws (no_ws_cons (by decide)
          (no_ws_append pad2_no_ws (no_ws_cons (by decide)
            (no_ws_append pad2_no_ws (no_ws_append ?_ ?_)))))))))))
  · split
    · intro c hc
      simp at hc
    · exact no_ws_cons (by decide) pad6_no_ws
  · rcases t.tz with _ | o
    · intro c hc
      simp at hc
    · exact offsetChars_no_ws

theorem readFrac_nil : readFrac [] = some (0, []) := rfl

theorem readFrac_offset (o : Int) :
    readFrac (offsetChars o) = some (0, offsetChars o) := by
  unfold offsetChars
  by_cases ho : o < 0
  · rw [if_pos ho]
    simp [readFrac]
  · rw [if_neg ho]
    simp [readFrac]

theorem read2_pad2_nil {n : Nat} (h : n < 100) : read2 (pad2 n) = some (n, []) := by
  have hx := read2_pad2 h []
  rwa [List.append_nil] at hx

theorem readTzSuffix_offset {o : Int} (h : o.natAbs < 1440) :
    readTzSuffix (offsetChars o) = some (some o) := by
  have h60 : o.natAbs / 60 < 100 := by omega
  have h60b : o.natAbs % 60 < 100 := by omega
  have hcond : o.natAbs / 60 * 60 + o.natAbs % 60 < 1440 := by omega
  unfold offsetChars readTzSuffix
  have hsum : o.natAbs / 60 * 60 + o.natAbs % 60 = o.natAbs := by omega
  by_cases ho : o < 0
  · rw [if_pos ho]
    simp only [read2_pad2 h60, expectChar_cons, read2_pad2_nil h60b]
    simp [hsum, h]
    rw [abs_of_neg ho]
    exact neg_neg o
  · rw [if_neg ho]
    simp only [read2_pad2 h60, expectChar_cons, read2_pad2_nil h60b]
    simp [hsum, h]
    exact not_lt.mp ho

theorem iso_parse_format {t : Timestamp} (hv : ValidTs t) :
    iso_parse (iso_format t) = some t := by
  obtain ⟨hy1, hy2, ⟨hmo1, hmo2, hd1, hd2⟩, hh, hmi, hs, hmic, htzv⟩ := hv
  have hdb := daysInMonth_bounds t.year t.month
  unfold iso_format iso_parse
  simp only [read4_pad4 (show t.year < 10000 by omega), expectChar_cons,
    read2_pad2 (show t.month < 100 by omega),
    read2_pad2 (show t.day < 100 by omega),
    read2_pad2 (show t.hour < 100 by omega),
    read2_pad2 (show t.minute < 100 by omega),
    read2_pad2 (show t.second < 100 by omega)]
  rw [if_neg (not_not_intro ⟨hy1, hmo1, hmo2, hd1, hd2⟩)]
  rw [if_neg (by simp : ¬ ¬ (True ∨ ('T' : Char) = ' '))]
  rw [if_neg (not_not_intro ⟨hh, hmi, hs⟩)]
  rcases htz : t.tz with _ | o
  · by_cases hm : t.micro = 0
    · rw [if_pos hm]
      show (match readFrac ([] ++ []) with
        | none => none
        | some (micro, r12) =>
            match readTzSuffix r12 with
            | none => none
            | some tz =>
                some ⟨t.year, t.month, t.day, t.hour, t.minute, t.second, micro, tz⟩)
          = some t
      rw [show ([] ++ [] : List Char) = [] from rfl, readFrac_nil]
      show some ⟨t.year, t.month, t.day, t.hour, t.minute, t.second, 0, none⟩ = some t
      rw [← hm, ← htz]
    · rw [if_neg hm]
      show (match readFrac ('.' :: pad6 t.micro ++ []) with
        | none => none
        | some (micro, r12) =>
            match readTzSuffix r12 with
            | none => none
            | some tz =>
                some ⟨t.year, t.month, t.day, t.hour, t.minute, t.second, micro, tz⟩)
          = some t
      rw [show ('.' :: pad6 t.micro ++ [] : List Char) = '.' :: (pad6 t.micro ++ [])
        from rfl]
      rw [show readFrac ('.' :: (pad6 t.micro ++ [])) = read6 (pad6 t.micro ++ [])
        from rfl]
      rw [read6_pad6 (show t.micro < 1000000 by omega)]
      show some ⟨t.year, t.month, t.day, t.hour, t.minute, t.second, t.micro, none⟩
        = some t
      rw [← htz]
  · have hov : o.natAbs < 1440 := htzv o htz
    by_cases hm : t.micro = 0
    · rw [if_pos hm]
      show (match readFrac ([] ++ offsetChars o) with
        | none => none
        | some (micro, r12) =>
            match readTzSuffix r12 with
            | none => none
            | some tz =>
                some ⟨t.year, t.month, t.day, t.hour, t.minute, t.second, micro, tz⟩)
          = some t
      rw [List.nil_append, readFrac_offset]
      show (match readTzSuffix (offsetChars o) with
        | none => none
        | some tz =>
            some ⟨t.year, t.month, t.day, t.hour, t.minute, t.second, 0, tz⟩)
          = some t
      rw [readTzSuffix_offset hov]
      show some ⟨t.year, t.month, t.day, t.hour, t.minute, t.second, 0, some o⟩ = some t
      rw [← hm, ← htz]
    · rw [if_neg hm]
      show (match readFrac ('.' :: pad6 t.micro ++ offsetChars o) with
        | none => none
        | some (micro, r12) =>
            match readTzSuffix r12 with
            | none => none
            | some tz =>
                some ⟨t.year, t.month, t.day, t.hour, t.minute, t.second, micro, tz⟩)
          = some t
      rw [show ('.' :: pad6 t.micro ++ offsetChars o : List Char)
        = '.' :: (pad6 t.micro ++ offsetChars o) from rfl]
      rw [show readFrac ('.' :: (pad6 t.micro ++ offsetChars o))
        = read6 (pad6 t.micro ++ offsetChars o) from rfl]
      rw [read6_pad6 (show t.micro < 1000000 by omega)]
      show (match readTzSuffix (offsetChars o) with
        | none => none
        | some tz =>
            some ⟨t.year, t.month, t.day, t.hour, t.minute, t.second, t.micro, tz⟩)
          = some t
      rw [readTzSuffix_offset hov]
      show some ⟨t.year, t.month, t.day, t.hour, t.minute, t.second, t.micro, some o⟩
        = some t
      rw [← htz]

/-- C10: for every representable timestamp, reading the watermark back after
saving it returns the timestamp, a timezone-naive one being reinterpreted as
UTC before persisting; a missing watermark file and non-ISO content both read
back as `none`. -/
theorem last_sync_roundtrip :
    (∀ t : Timestamp, ValidTs t →
        get_last_sync (save_last_sync t)
          = some (if t.tz = none then { t with tz := some 0 } else t))
    ∧ get_last_sync none = none
    ∧ get_last_sync (some "not a timestamp") = none := by
  refine ⟨?_, rfl, by decide⟩
  intro t hv
  have hv' : ValidTs (if t.tz = none then { t with tz := some 0 } else t) := by
    by_cases htz : t.tz = none
    · rw [if_pos htz]
      obtain ⟨h1, h2, h3, h4, h5, h6, h7, -⟩ := hv
      refine ⟨h1, h2, h3, h4, h5, h6, h7, ?_⟩
      intro o ho
      have ho2 : some (0 : Int) = some o := ho
      injection ho2 with ho3
      rw [← ho3]
      decide
    · rw [if_neg htz]
      exact hv
  show iso_parse (trimChars
      (iso_format (if t.tz = none then { t with tz := some 0 } else t)))
    = some (if t.tz = none then { t with tz := some 0 } else t)
  rw [trimChars_eq_self (iso_format_no_ws _)]
  exact iso_parse_format hv'

theorem last_sync_roundtrip_witness :
    get_last_sync (save_last_sync ⟨2024, 1, 15, 10, 30, 0, 0, none⟩)
      = some (if (⟨2024, 1, 15, 10, 30, 0, 0, none⟩ : Timestamp).tz = none
          then { (⟨2024, 1, 15, 10, 30, 0, 0, none⟩ : Timestamp) with tz := some 0 }
          else ⟨2024, 1, 15, 10, 30, 0, 0, none⟩) :=
  last_sync_roundtrip.1 ⟨2024, 1, 15, 10, 30, 0, 0, none⟩ (by decide)

/-- C2: `parse_session_file` accepts an `exclude_tool_messages` flag, and
with the flag set no yielded message has tool-only content: text consisting
solely of non-empty lines that each exactly match the tool-marker or
tool-result-marker pattern. -/
theorem parse_excludes_tool_only (lines : List RawLine) (exclude_system : Bool)
    (date_filter : Option Timestamp) (m : Message)
    (h : m ∈ parse_session_file lines exclude_system true date_filter) :
    is_tool_only_message m.content = false := by
  rw [parse_session_file, List.mem_filterMap] at h
  obtain ⟨line, -, hf⟩ := h
  cases line with
  | blank => simp at hf
  | malformed => simp at hf
  | entry type_ ts content =>
      simp only at hf
      by_cases h1 : (type_ = some "user" ∨ type_ = some "assistant")
      · rw [if_neg (not_not_intro h1)] at hf
        cases ts with
        | none => simp at hf
        | some tstr =>
            simp only at hf
            by_cases h2 : tstr = ""
            · rw [if_pos h2] at hf
              simp at hf
            · rw [if_neg h2] at hf
              cases hp : iso_parse (zReplace tstr.data) with
              | none =>
                  rw [hp] at hf
                  simp at hf
              | some timestamp =>
                  rw [hp] at hf
                  simp only at hf
                  split at hf
                  · simp at hf
                  · split at hf
                    · simp at hf
                    · rename_i htool
                      split at hf
                      · simp at hf
                      · split at hf
                        · simp at hf
                        · rename_i htool2 hne
                          simp only [Option.some.injEq] at hf
                          rw [← hf]
                          simp only []
                          by_cases hb : is_tool_only_message (clean_content
                            (extract_text_content (content.getD (.str ""))))
                              = true
                          · exact absurd ⟨trivial, hb⟩ htool2
                          · simpa using hb
      · rw [if_pos h1] at hf
        simp at hf

theorem parse_excludes_tool_only_witness :
    is_tool_only_message
      (([⟨"user", ⟨2024, 1, 15, 10, 30, 0, 0, some 0⟩, "Hello"⟩] :
          List Message).headD ⟨"", ⟨0, 0, 0, 0, 0, 0, 0, none⟩, ""⟩).content
      = false := by
  have hmem : (⟨"user", ⟨2024, 1, 15, 10, 30, 0, 0, some 0⟩, "Hello"⟩ : Message)
      ∈ parse_session_file
        [RawLine.entry (some "user") (some "2024-01-15T10:30:00Z")
          (some (.str "Hello"))] true true none := by decide
  exact parse_excludes_tool_only _ true none _ hmem

/-- C4: session discovery with a `since` watermark only yields files whose
modification time is strictly after `since`; consequently, when no file has
been modified after the watermark, a re-run of sync returns an empty
written-paths list. -/
theorem discover_since_strict :
    (∀ (fs : Dirs) (projects : List ProjectDir) (t : Int)
        (e : SessionFile × String × PathT),
        e ∈ discover_sessions fs projects (some t) → t < e.1.mtime)
    ∧ (∀ (fs : Dirs) (env : GitEnv) (config : Config)
        (projects : List ProjectDir) (df : Option Timestamp) (t : Int),
        (∀ pd ∈ projects, ∀ f ∈ pd.files, f.mtime ≤ t) →
        sync_logs fs env config projects df (some t) = []) := by
  constructor
  · intro fs projects t e he
    rw [discover_sessions, List.mem_flatMap] at he
    obtain ⟨pd, -, hin⟩ := he
    split at hin
    · simp at hin
    · rw [List.mem_map] at hin
      obtain ⟨f, hfm, he2⟩ := hin
      rw [List.mem_filter] at hfm
      have h2 := hfm.2
      simp only [decide_eq_true_eq] at h2
      rw [← he2]
      simp only []
      omega
  · intro fs env config projects df t hall
    have hdisc : discover_sessions fs projects (some t) = [] := by
      rw [discover_sessions, List.flatMap_eq_nil_iff]
      intro pd hpd
      split
      · rfl
      · rw [List.map_eq_nil_iff, List.filter_eq_nil_iff]
        intro f hfm
        simp only [decide_eq_true_eq, not_not]
        exact hall pd hpd f hfm
    rw [sync_logs, collect_sessions, hdisc]
    rfl

theorem discover_since_strict_witness :
    ((3 : Int) < ((⟨"s1", (5 : Int), []⟩ : SessionFile).mtime))
    ∧ sync_logs [] ⟨fun _ => RunResult.timedOut, fun _ => RunResult.timedOut⟩
        ⟨⟨[], "date"⟩, ⟨true, true⟩, []⟩ [⟨"-p", true, [⟨"s1", 5, []⟩]⟩]
        none (some 7) = [] := by
  constructor
  · exact discover_since_strict.1 [] [⟨"-p", true, [⟨"s1", 5, []⟩]⟩] 3
      (⟨"s1", 5, []⟩, "s1", decode_project_path [] "-p") (by decide)
  · exact discover_since_strict.2 []
      ⟨fun _ => RunResult.timedOut, fun _ => RunResult.timedOut⟩
      ⟨⟨[], "date"⟩, ⟨true, true⟩, []⟩ [⟨"-p", true, [⟨"s1", 5, []⟩]⟩] none 7
      (by intro pd hpd f hfm
          simp only [List.mem_singleton] at hpd
          rw [hpd] at hfm
          simp only [List.mem_singleton] at hfm
          rw [hfm]
          decide)

end CCJournal

